import Mathlib

/-!
# Verification of the Open Screen Protocol agent session stack

A shallow embedding of the OSP agent sources (openscreen): the `ByteView`
span type, the SPAKE2 authentication state machine (`AuthenticationBob` and
`AuthenticationBase`), and the QUIC protocol-connection endpoints
(`QuicClient`, `QuicServer`) with their lifecycle state machines, pending
and established connection tables, instance-id allocation, promotion on
crypto-handshake completion, cancellation and cleanup.

C++ containers are embedded as association lists with unique keys
(`std::map` semantics: `find` returns the entry for a key, `emplace` inserts
only when the key is absent, `operator[]` inserts or assigns).  Machine
integers are `Nat` (the counters involved only ever increment by one and
never approach 2^64, and no source operation relies on wrap-around).
External collaborators (the QUIC library, OpenSSL primitives, generated
CBOR codecs) are abstracted exactly at the interfaces the source calls.
-/

/-! ## ByteView (platform/base/byte_view.h)

`ByteView` is a non-owning `(data_, count_)` pair.  The data pointer is
embedded as an abstract offset; the `assert` preconditions of the accessors
are embedded as decidable propositions, one per source `assert`.
-/

structure ByteView where
  off : Nat
  count : Nat
deriving DecidableEq, Repr

/-- `ByteView::size()`: returns `count_`. -/
def ByteView.size (v : ByteView) : Nat := v.count

/-- Precondition of `ByteView::subspan`: `assert(offset + count < count_)`. -/
def ByteView.subspanPre (v : ByteView) (offset count : Nat) : Prop :=
  offset + count < v.count

instance (v : ByteView) (offset count : Nat) : Decidable (v.subspanPre offset count) :=
  inferInstanceAs (Decidable (offset + count < v.count))

/-- `ByteView::subspan(offset, count)`: `ByteView(data_ + offset, count)`. -/
def ByteView.subspan (v : ByteView) (offset count : Nat) : ByteView :=
  ⟨v.off + offset, count⟩

/-- Precondition of `ByteView::first`: `assert(count <= count_)`. -/
def ByteView.firstPre (v : ByteView) (count : Nat) : Prop :=
  count ≤ v.count

instance (v : ByteView) (count : Nat) : Decidable (v.firstPre count) :=
  inferInstanceAs (Decidable (count ≤ v.count))

/-- `ByteView::first(count)`: `ByteView(data_, count)`. -/
def ByteView.first (v : ByteView) (count : Nat) : ByteView :=
  ⟨v.off, count⟩

/-- Precondition of `ByteView::last`: `assert(count <= count_); assert(count != 0)`. -/
def ByteView.lastPre (v : ByteView) (count : Nat) : Prop :=
  count ≤ v.count ∧ count ≠ 0

instance (v : ByteView) (count : Nat) : Decidable (v.lastPre count) :=
  inferInstanceAs (Decidable (count ≤ v.count ∧ count ≠ 0))

/-- `ByteView::last(count)`: `ByteView(data_ + (count_ - count), count)`. -/
def ByteView.last (v : ByteView) (count : Nat) : ByteView :=
  ⟨v.off + (v.count - count), count⟩

/-! ## SPAKE2 authentication messages (osp/msgs, schema from the spec tables)

The CBOR-level encode/decode is generated code outside the embedded sources;
the messages themselves are plain records.  Byte strings are `List Nat`.
-/

inductive AuthSpake2PskStatus
  | kPskNeedsPresentation
  | kPskShown
  | kPskInput
deriving DecidableEq, Repr

structure AuthInitiationToken where
  has_token : Bool
  token : String
deriving DecidableEq, Repr

structure AuthSpake2Handshake where
  initiation_token : AuthInitiationToken
  psk_status : AuthSpake2PskStatus
  public_value : List Nat
deriving DecidableEq, Repr

structure AuthSpake2Confirmation where
  confirmation_value : List Nat
deriving DecidableEq, Repr

inductive AuthStatusResult
  | kAuthenticated
  | kProofInvalid
  | kUnknownError
deriving DecidableEq, Repr

structure AuthStatus where
  result : AuthStatusResult
deriving DecidableEq, Repr

/-! ## Cryptographic primitives

The spec delegates the elliptic-curve and hash primitives to a crypto
library (OpenSSL in the source); they are abstracted as opaque functions at
exactly the call boundary the source uses: `base64::Decode`,
`ECDH_compute_key` on P-256, `SHA512` and the public-value serialization.
-/

structure CryptoPrimitives where
  base64Decode : String → List Nat
  ecdhComputeKey : List Nat → List Nat → List Nat
  sha512 : List Nat → List Nat
  ecPublicValue : List Nat → List Nat

/-- Bytes of a `std::string` as passed to `SHA512_Update(data(), size())`. -/
def stringBytes (s : String) : List Nat :=
  s.toList.map Char.toNat

/-- `SHA512_Init`: empty accumulated input. -/
def sha512Init : List Nat := []

/-- `SHA512_Update`: appends the new bytes to the accumulated input. -/
def sha512Update (ctx data : List Nat) : List Nat := ctx ++ data

/-- `SHA512_Final`: hashes the accumulated input. -/
def sha512Final (cp : CryptoPrimitives) (ctx : List Nat) : List Nat :=
  cp.sha512 ctx

/-- `AuthenticationBase::ComputePrivateKey`: `base64::Decode(fingerprint, &private_key)`. -/
def ComputePrivateKey (cp : CryptoPrimitives) (fingerprint : String) : List Nat :=
  cp.base64Decode fingerprint

/-- `AuthenticationBase::ComputePublicValue`: serialized P-256 point
`private_bn × G` (the OpenSSL steps are delegated to the crypto library). -/
def ComputePublicValue (cp : CryptoPrimitives) (self_private_key : List Nat) : List Nat :=
  cp.ecPublicValue self_private_key

/-- `AuthenticationBase::ComputeSharedKey`: ECDH on P-256 between the own
private scalar and the peer public point, then
`SHA512(shared_secret ‖ password)` via Init/Update/Update/Final. -/
def ComputeSharedKey (cp : CryptoPrimitives) (self_private_key peer_public_value : List Nat)
    (password : String) : List Nat :=
  let shared_key_data := cp.ecdhComputeKey self_private_key peer_public_value
  let ctx := sha512Update (sha512Update sha512Init shared_key_data) (stringBytes password)
  sha512Final cp ctx

/-! ## AuthenticationBob (osp/public/authentication_bob.cc)

`OnStreamMessage` dispatches a decoded inbound frame.  The generated
`DecodeAuthSpake2*` functions are not part of the embedded sources, so the
decode outcome (`result < 0` with `kParserEOF`, versus a successfully
decoded message and its consumed byte count) is an input of the dispatch,
mirroring the three-way branch the source takes on `result`.
-/

inductive AuthErrorCode
  | kNoActiveConnection
  | kCborIncompleteMessage
  | kCborParsing
  | kInvalidAnswer
deriving DecidableEq, Repr

inductive DecodeResult (α : Type)
  | ok (message : α) (consumed : Nat)
  | eof
  | fail
deriving DecidableEq, Repr

/-- Inbound frame of `AuthenticationBob::OnStreamMessage`, one constructor per
`msgs::Type` case of the switch (the default case is `unprocessableType`). -/
inductive BobInbound
  | handshakeMsg (r : DecodeResult AuthSpake2Handshake)
  | confirmationMsg (r : DecodeResult AuthSpake2Confirmation)
  | statusMsg (r : DecodeResult AuthStatus)
  | unprocessableType
deriving DecidableEq, Repr

/-- Observable effects of the dispatch: messages written through the sender
protocol connection and delegate notifications, in program order. -/
inductive AuthEvent
  | sentHandshake (m : AuthSpake2Handshake)
  | sentConfirmation (m : AuthSpake2Confirmation)
  | sentStatus (m : AuthStatus)
  | onAuthenticationSucceed (instance_id : Nat)
  | onAuthenticationFailed (instance_id : Nat) (code : AuthErrorCode) (message : String)
deriving DecidableEq, Repr

/-- Return value of `OnStreamMessage` (`ErrorOr<size_t>`). -/
inductive StreamMessageResult
  | ok (consumed : Nat)
  | err (code : AuthErrorCode)
deriving DecidableEq, Repr

/-- Text streamed for `msgs::AuthStatusResult` when building the failure
message of the `kAuthStatus` case; the `operator<<` is generated CBOR codec
code outside the embedded sources and no claim depends on its exact text. -/
def authStatusResultText : AuthStatusResult → String
  | .kAuthenticated => "kAuthenticated"
  | .kProofInvalid => "kProofInvalid"
  | .kUnknownError => "kUnknownError"

/-- `AuthenticationBase::AuthenticationData`: `sender` is embedded as a
presence flag, `shared_key` as a byte list (`std::array<uint8_t, 64>`,
value-initialized to 64 zero bytes). -/
structure AuthenticationData where
  hasSender : Bool
  auth_token : String
  password : String
  shared_key : List Nat
deriving DecidableEq, Repr

structure AuthenticationBob where
  instance_id : Nat
  fingerprint : String
  auth_data : AuthenticationData
deriving DecidableEq, Repr

/-- `AuthenticationBob::OnStreamMessage`.  Returns the new state, the emitted
events in program order, and the `ErrorOr<size_t>` result.  The
`OSP_CHECK_EQ(instance_id_, instance_id)` makes the argument equal to the
stored id, so the stored id is used throughout. -/
def AuthenticationBob.OnStreamMessage (cp : CryptoPrimitives) (bob : AuthenticationBob)
    (inbound : BobInbound) : AuthenticationBob × List AuthEvent × StreamMessageResult :=
  if bob.auth_data.hasSender = false then
    (bob, [.onAuthenticationFailed bob.instance_id .kNoActiveConnection ""],
     .err .kNoActiveConnection)
  else
    match inbound with
    | .handshakeMsg .eof => (bob, [], .err .kCborIncompleteMessage)
    | .handshakeMsg .fail =>
        (bob, [.onAuthenticationFailed bob.instance_id .kCborParsing
                 "Failed to parse AuthSpake2Handshake message."],
         .err .kCborParsing)
    | .handshakeMsg (.ok handshake result) =>
        if handshake.initiation_token.has_token = false ∨
            handshake.initiation_token.token ≠ bob.auth_data.auth_token then
          (bob, [.onAuthenticationFailed bob.instance_id .kInvalidAnswer
                   "Authentication failed: initiation token mismatch."],
           .ok result)
        else if handshake.psk_status = .kPskShown then
          let key := ComputeSharedKey cp (ComputePrivateKey cp bob.fingerprint)
              handshake.public_value bob.auth_data.password
          let reply : AuthSpake2Handshake :=
            { initiation_token :=
                { has_token := true, token := handshake.initiation_token.token },
              psk_status := .kPskInput,
              public_value := ComputePublicValue cp (ComputePrivateKey cp bob.fingerprint) }
          ({ bob with auth_data := { bob.auth_data with shared_key := key } },
           [.sentHandshake reply], .ok result)
        else if handshake.psk_status = .kPskInput then
          (bob,
           [.sentConfirmation
              ⟨ComputeSharedKey cp (ComputePrivateKey cp bob.fingerprint)
                 handshake.public_value bob.auth_data.password⟩],
           .ok result)
        else
          (bob, [.onAuthenticationFailed bob.instance_id .kInvalidAnswer
                   "Authentication failed: receive wrong PSK status."],
           .ok result)
    | .confirmationMsg .eof => (bob, [], .err .kCborIncompleteMessage)
    | .confirmationMsg .fail =>
        (bob, [.onAuthenticationFailed bob.instance_id .kCborParsing
                 "Failed to parse AuthSpake2Confirmation message."],
         .err .kCborParsing)
    | .confirmationMsg (.ok confirmation result) =>
        -- std::equal compares exactly shared_key.size() bytes of the received
        -- confirmation value against the stored shared key.
        if bob.auth_data.shared_key =
            confirmation.confirmation_value.take bob.auth_data.shared_key.length then
          (bob, [.sentStatus ⟨.kAuthenticated⟩,
                 .onAuthenticationSucceed bob.instance_id],
           .ok result)
        else
          (bob, [.sentStatus ⟨.kProofInvalid⟩,
                 .onAuthenticationFailed bob.instance_id .kInvalidAnswer
                   "Authentication failed: shared key mismatch."],
           .ok result)
    | .statusMsg .eof => (bob, [], .err .kCborIncompleteMessage)
    | .statusMsg .fail =>
        (bob, [.onAuthenticationFailed bob.instance_id .kCborParsing
                 "Failed to parse AuthStatus message."],
         .err .kCborParsing)
    | .statusMsg (.ok status result) =>
        if status.result = .kAuthenticated then
          (bob, [.onAuthenticationSucceed bob.instance_id], .ok result)
        else
          (bob, [.onAuthenticationFailed bob.instance_id .kInvalidAnswer
                   ("Authentication failed: " ++ authStatusResultText status.result)],
           .ok result)
    | .unprocessableType =>
        (bob, [.onAuthenticationFailed bob.instance_id .kCborParsing
                 "Receives authentication message with unprocessable type."],
         .err .kCborParsing)

/-! ## Association-list embedding of std::map / std::vector-of-pairs

Keys are unique in every reachable state; `find` returns the value at the
first matching key, `emplace` inserts only when absent (std::map::emplace),
`setItem` inserts or assigns (std::map::operator[] followed by assignment),
`eraseKey` removes the entry (std::map::erase).
-/

def alistFind {κ α : Type} [DecidableEq κ] (k : κ) (l : List (κ × α)) : Option α :=
  (l.find? (fun e => e.1 = k)).map (·.2)

def alistEmplace {κ α : Type} [DecidableEq κ] (k : κ) (v : α) (l : List (κ × α)) :
    List (κ × α) :=
  match alistFind k l with
  | some _ => l
  | none => l ++ [(k, v)]

def alistSetItem {κ α : Type} [DecidableEq κ] (k : κ) (v : α) (l : List (κ × α)) :
    List (κ × α) :=
  match alistFind k l with
  | some _ => l.map (fun e => if e.1 = k then (k, v) else e)
  | none => l ++ [(k, v)]

def alistEraseKey {κ α : Type} [DecidableEq κ] (k : κ) (l : List (κ × α)) :
    List (κ × α) :=
  l.filter (fun e => ¬ e.1 = k)

/-- Update the value stored at a key in place (the source mutates the mapped
value through the iterator returned by `find` / `emplace`). -/
def alistUpdate {κ α : Type} [DecidableEq κ] (k : κ) (f : α → α) (l : List (κ × α)) :
    List (κ × α) :=
  l.map (fun e => if e.1 = k then (e.1, f e.2) else e)

/-! ## QuicClient (osp/impl/quic/quic_client.cc)

The endpoint state machine, connection tables and callbacks.  A QUIC session
is identified by an abstract connection id; a registered
`ConnectionRequestCallback*` is an abstract callback id.  Observable effects
are collected as events in program order.
-/

/-- `ProtocolConnectionClient::State` (the client enum has no `kSuspended`). -/
inductive ClientState
  | kStopped
  | kStarting
  | kRunning
  | kStopping
deriving DecidableEq, Repr

/-- `ServiceConnectionData`: the owned QUIC session (abstract id) and its
delegate's stream table, abstracted to the `has_streams()` bit which is all
`Cleanup` consults. -/
structure ServiceConnectionData where
  connId : Nat
  hasStreams : Bool
deriving DecidableEq, Repr

/-- `QuicClient::PendingConnectionData`: connection data plus the
`(request id, callback)` pairs waiting on the handshake, in registration
order (`callbacks.emplace_back`). -/
structure PendingConnectionData where
  data : ServiceConnectionData
  callbacks : List (Nat × Nat)
deriving DecidableEq, Repr

inductive ClientEvent
  | onRunning
  | onStopped
  | onConnectionOpened (callback request_id instance_number : Nat)
  | onConnectionFailed (callback request_id : Nat)
  | connClosed (connId : Nat)
deriving DecidableEq, Repr

structure QuicClient where
  state : ClientState
  instance_infos : List String
  pending_connections : List (String × PendingConnectionData)
  connections : List (Nat × ServiceConnectionData)
  instance_map : List (String × Nat)
  next_instance_number : Nat
  next_request_id : Nat
  delete_connections : List Nat
  instance_request_ids : List (Nat × Nat)
deriving DecidableEq, Repr

/-- Initial `QuicClient`.  The field initializers live in `quic_client.h`,
which is not among the embedded sources; the counters start at 1, modelled
from the spec ("a process-local 64-bit counter (starting at 1)") and the
header contract "the request_id of a valid ConnectRequest should be greater
than 0" together with `StartConnectionRequest` treating 0 as failure. -/
def QuicClient.init : QuicClient :=
  { state := .kStopped
    instance_infos := []
    pending_connections := []
    connections := []
    instance_map := []
    next_instance_number := 1
    next_request_id := 1
    delete_connections := []
    instance_request_ids := [] }

/-- `QuicClient::Cleanup` (table effects): destroy closed streams, close
sessions with no remaining streams, then drain `delete_connections_` out of
`connections_`.  Re-scheduling of the alarm is not modelled; a cleanup tick
is an explicit trace operation. -/
def QuicClient.cleanup (c : QuicClient) : QuicClient × List ClientEvent :=
  let events := (c.connections.filter (fun e => e.2.hasStreams = false)).map
    (fun e => ClientEvent.connClosed e.2.connId)
  let conns := c.delete_connections.foldl (fun cs n => alistEraseKey n cs) c.connections
  ({ c with connections := conns, delete_connections := [] }, events)

/-- `QuicClient::CloseAllConnections`: close every pending session and fail
its waiters, close every established session, clear both tables and the
instance map, reset the instance-number counter to 1 and reset the
per-instance request-id generator. -/
def QuicClient.CloseAllConnections (c : QuicClient) : QuicClient × List ClientEvent :=
  let evPending := c.pending_connections.foldr
    (fun e acc =>
      ClientEvent.connClosed e.2.data.connId ::
        (e.2.callbacks.map (fun cb => ClientEvent.onConnectionFailed cb.2 cb.1) ++ acc))
    []
  let evConns := c.connections.map (fun e => ClientEvent.connClosed e.2.connId)
  ({ c with
      pending_connections := []
      connections := []
      instance_map := []
      next_instance_number := 1
      instance_request_ids := [] },
   evPending ++ evConns)

/-- `QuicClient::Start`. -/
def QuicClient.Start (c : QuicClient) : Bool × QuicClient × List ClientEvent :=
  if c.state = .kRunning then (false, c, [])
  else
    let c1 := { c with state := ClientState.kRunning }
    let (c2, ev) := c1.cleanup
    (true, c2, ev ++ [.onRunning])

/-- `QuicClient::Stop`. -/
def QuicClient.Stop (c : QuicClient) : Bool × QuicClient × List ClientEvent :=
  if c.state = .kStopped then (false, c, [])
  else
    let (c1, ev1) := c.CloseAllConnections
    let c2 := { c1 with state := ClientState.kStopped }
    let (c3, ev2) := c2.cleanup
    (true, c3, ev1 ++ ev2 ++ [.onStopped])

/-- `QuicClient::CreateProtocolConnection`: synchronous creation over an
established connection; the resulting protocol connection is represented by
the instance number it carries. -/
def QuicClient.CreateProtocolConnection (c : QuicClient) (instance_number : Nat) :
    Option Nat :=
  if ¬ c.state = .kRunning then none
  else
    match alistFind instance_number c.connections with
    | none => none
    | some _ => some instance_number

/-- Result of `QuicClient::Connect`.  `checkFailed` marks the path where the
source's `OSP_CHECK(immediate_result)` fails (a crash in C++). -/
inductive ConnectResult
  | success (request_id : Nat)
  | failure
  | checkFailed
deriving DecidableEq, Repr

/-- `QuicClient::StartConnectionRequest`.  The factory's
`Connect(local, remote, fingerprint, delegate)` call is external I/O; its
outcome is the `factory` argument (`some connId` on success).  Returns the
request id (0 on failure) as in the source. -/
def QuicClient.StartConnectionRequest (c : QuicClient) (instance_id : String)
    (request_callback : Nat) (factory : Option Nat) :
    Nat × QuicClient × List ClientEvent :=
  if ¬ c.instance_infos.contains instance_id then
    (0, c, [.onConnectionFailed request_callback 0])
  else
    match factory with
    | none => (0, c, [.onConnectionFailed request_callback 0])
    | some connId =>
      let pending := alistEmplace instance_id
        { data := { connId := connId, hasStreams := false }, callbacks := [] }
        c.pending_connections
      let request_id := c.next_request_id
      let pending' := alistUpdate instance_id
        (fun p => { p with callbacks := p.callbacks ++ [(request_id, request_callback)] })
        pending
      (request_id,
       { c with pending_connections := pending', next_request_id := request_id + 1 },
       [])

/-- `QuicClient::CreatePendingConnection`: coalesce onto an existing pending
entry for the same instance name, otherwise start a fresh connection
request.  Returns `some request_id` when the source returns true. -/
def QuicClient.CreatePendingConnection (c : QuicClient) (instance_id : String)
    (request_callback : Nat) (factory : Option Nat) :
    Option Nat × QuicClient × List ClientEvent :=
  match alistFind instance_id c.pending_connections with
  | none =>
    let (request_id, c', ev) := c.StartConnectionRequest instance_id request_callback factory
    (if request_id = 0 then none else some request_id, c', ev)
  | some _ =>
    let request_id := c.next_request_id
    let pending := alistUpdate instance_id
      (fun p => { p with callbacks := p.callbacks ++ [(request_id, request_callback)] })
      c.pending_connections
    (some request_id,
     { c with pending_connections := pending, next_request_id := request_id + 1 },
     [])

/-- `QuicClient::Connect`. -/
def QuicClient.Connect (c : QuicClient) (instance_id : String) (request_callback : Nat)
    (factory : Option Nat) : ConnectResult × QuicClient × List ClientEvent :=
  if ¬ c.state = .kRunning then
    (.failure, c, [.onConnectionFailed request_callback 0])
  else
    match alistFind instance_id c.instance_map with
    | some instance_number =>
      match c.CreateProtocolConnection instance_number with
      | none => (.checkFailed, c, [])
      | some pc =>
        let request_id := c.next_request_id
        (.success request_id,
         { c with next_request_id := request_id + 1 },
         [.onConnectionOpened request_callback request_id pc])
    | none =>
      let (r, c', ev) := c.CreatePendingConnection instance_id request_callback factory
      (match r with
       | some request_id => ConnectResult.success request_id
       | none => ConnectResult.failure,
       c', ev)

/-- `QuicClient::OnCryptoHandshakeComplete`: promote the pending entry for
the delegate's instance name to the established table under a freshly
allocated instance number, then fulfil every waiter in registration order
with a protocol connection carrying that number.  Returns the number (0 when
no pending entry exists). -/
def QuicClient.OnCryptoHandshakeComplete (c : QuicClient) (instance_id : String) :
    Nat × QuicClient × List ClientEvent :=
  match alistFind instance_id c.pending_connections with
  | none => (0, c, [])
  | some p =>
    let instance_number := c.next_instance_number
    let events := p.callbacks.map
      (fun cb => ClientEvent.onConnectionOpened cb.2 cb.1 instance_number)
    (instance_number,
     { c with
        next_instance_number := instance_number + 1
        instance_map := alistSetItem instance_id instance_number c.instance_map
        connections := alistEmplace instance_number p.data c.connections
        pending_connections := alistEraseKey instance_id c.pending_connections },
     events)

/-- `QuicClient::OnConnectionClosed`: queue the instance for deletion at the
next cleanup and reset its per-instance request ids.  Note it does not touch
`instance_map_`. -/
def QuicClient.OnConnectionClosed (c : QuicClient) (instance_number : Nat) : QuicClient :=
  match alistFind instance_number c.connections with
  | none => c
  | some _ =>
    { c with
        delete_connections := c.delete_connections ++ [instance_number]
        instance_request_ids := alistEraseKey instance_number c.instance_request_ids }

/-- Loop body of `QuicClient::CancelConnectRequest`: erase-remove the request
id from each entry's callbacks; if an entry's callbacks are empty, erase the
entry and return; else if its size changed, return.  Modelled from the spec
for the part outside the embedded sources: erasing the pending entry
destroys its `ServiceConnectionData`, whose `QuicConnection` destructor
closes the session ("its QUIC session closed"), emitted as a `connClosed`
event. -/
def cancelLoop (request_id : Nat) :
    List (String × PendingConnectionData) →
    List (String × PendingConnectionData) × List ClientEvent
  | [] => ([], [])
  | e :: rest =>
    let size_before := e.2.callbacks.length
    let cbs := e.2.callbacks.filter (fun cb => ¬ cb.1 = request_id)
    if cbs.isEmpty then
      (rest, [.connClosed e.2.data.connId])
    else if cbs.length < size_before then
      ((e.1, { e.2 with callbacks := cbs }) :: rest, [])
    else
      let (rest', ev) := cancelLoop request_id rest
      (e :: rest', ev)

/-- `QuicClient::CancelConnectRequest`. -/
def QuicClient.CancelConnectRequest (c : QuicClient) (request_id : Nat) :
    QuicClient × List ClientEvent :=
  let (pending, ev) := cancelLoop request_id c.pending_connections
  ({ c with pending_connections := pending }, ev)

/-- `QuicClient::OnReceiverAdded`: `instance_infos_.insert(...)` (no
overwrite); only the key set matters to the embedded operations. -/
def QuicClient.OnReceiverAdded (c : QuicClient) (instance_id : String) : QuicClient :=
  if c.instance_infos.contains instance_id then c
  else { c with instance_infos := c.instance_infos ++ [instance_id] }

/-! ### Client traces -/

/-- One externally triggered client operation. -/
inductive ClientOp
  | start
  | stop
  | receiverAdded (instance_id : String)
  | connect (instance_id : String) (request_callback : Nat) (factory : Option Nat)
  | cancel (request_id : Nat)
  | handshake (instance_id : String)
  | connectionClosed (instance_number : Nat)
  | runCleanup
deriving DecidableEq, Repr

/-- Apply one operation: new state, events, and the instance numbers issued
by `OnCryptoHandshakeComplete` (a 0 return is "no pending entry", not an
issued id). -/
def QuicClient.step (c : QuicClient) (op : ClientOp) :
    QuicClient × List ClientEvent × List Nat :=
  match op with
  | .start => let (_, c', ev) := c.Start; (c', ev, [])
  | .stop => let (_, c', ev) := c.Stop; (c', ev, [])
  | .receiverAdded name => (c.OnReceiverAdded name, [], [])
  | .connect name cb factory => let (_, c', ev) := c.Connect name cb factory; (c', ev, [])
  | .cancel rid => let (c', ev) := c.CancelConnectRequest rid; (c', ev, [])
  | .handshake name =>
    let (n, c', ev) := c.OnCryptoHandshakeComplete name
    (c', ev, if n = 0 then [] else [n])
  | .connectionClosed n => (c.OnConnectionClosed n, [], [])
  | .runCleanup => let (c', ev) := c.cleanup; (c', ev, [])

/-- Run a trace of operations, collecting events and issued instance
numbers in order. -/
def QuicClient.runOps (c : QuicClient) : List ClientOp → QuicClient × List ClientEvent × List Nat
  | [] => (c, [], [])
  | op :: ops =>
    let (c1, ev, ids) := c.step op
    let (c2, ev2, ids2) := c1.runOps ops
    (c2, ev ++ ev2, ids ++ ids2)

/-- A client state reachable from the initial state by some trace. -/
def ClientReachable (c : QuicClient) : Prop :=
  ∃ ops : List ClientOp, (QuicClient.runOps QuicClient.init ops).1 = c

/-! ## QuicServer (osp/impl/quic/quic_server.cc)

The server variant of the lifecycle state machine.  Its state enum is
`ProtocolConnectionEndpoint::State`, which includes `kSuspended`; its pending
table has no waiter callbacks (incoming connections are anonymous until the
handshake), and `Stop` additionally deregisters the factory delegate.
-/

inductive EndpointState
  | kStopped
  | kStarting
  | kRunning
  | kStopping
  | kSuspended
deriving DecidableEq, Repr

inductive ServerEvent
  | onRunning
  | onStopped
  | onSuspended
  | setDelegate (active : Bool)
  | connClosed (connId : Nat)
deriving DecidableEq, Repr

structure QuicServer where
  state : EndpointState
  pending_connections : List (String × ServiceConnectionData)
  connections : List (Nat × ServiceConnectionData)
  instance_map : List (String × Nat)
  next_instance_id : Nat
  delete_connections : List Nat
  instance_request_ids : List (Nat × Nat)
deriving DecidableEq, Repr

/-- Initial `QuicServer` (`state_ = State::kStopped`, `next_instance_id_ = 1u`). -/
def QuicServer.init : QuicServer :=
  { state := .kStopped
    pending_connections := []
    connections := []
    instance_map := []
    next_instance_id := 1
    delete_connections := []
    instance_request_ids := [] }

/-- `QuicServer::Cleanup` (table effects): destroy closed streams, then
drain `delete_connections_` out of `connections_`. -/
def QuicServer.cleanup (s : QuicServer) : QuicServer :=
  let conns := s.delete_connections.foldl (fun cs n => alistEraseKey n cs) s.connections
  { s with connections := conns, delete_connections := [] }

/-- `QuicServer::CloseAllConnections`. -/
def QuicServer.CloseAllConnections (s : QuicServer) : QuicServer × List ServerEvent :=
  let ev := s.pending_connections.map (fun e => ServerEvent.connClosed e.2.connId) ++
    s.connections.map (fun e => ServerEvent.connClosed e.2.connId)
  ({ s with
      pending_connections := []
      connections := []
      instance_map := []
      next_instance_id := 1
      instance_request_ids := [] },
   ev)

/-- `QuicServer::Start`. -/
def QuicServer.Start (s : QuicServer) : Bool × QuicServer × List ServerEvent :=
  if ¬ s.state = .kStopped then (false, s, [])
  else
    let s1 := (QuicServer.cleanup { s with state := EndpointState.kRunning })
    (true, s1, [.setDelegate true, .onRunning])

/-- `QuicServer::Stop`. -/
def QuicServer.Stop (s : QuicServer) : Bool × QuicServer × List ServerEvent :=
  if ¬ s.state = .kRunning ∧ ¬ s.state = .kSuspended then (false, s, [])
  else
    let (s1, ev) := s.CloseAllConnections
    let s2 := (QuicServer.cleanup { s1 with state := EndpointState.kStopped })
    (true, s2, [ServerEvent.setDelegate false] ++ ev ++ [.onStopped])

/-- `QuicServer::Suspend`. -/
def QuicServer.Suspend (s : QuicServer) : Bool × QuicServer × List ServerEvent :=
  if ¬ s.state = .kRunning then (false, s, [])
  else (true, { s with state := EndpointState.kSuspended }, [.onSuspended])

/-- `QuicServer::Resume`. -/
def QuicServer.Resume (s : QuicServer) : Bool × QuicServer × List ServerEvent :=
  if ¬ s.state = .kSuspended then (false, s, [])
  else (true, { s with state := EndpointState.kRunning }, [.onRunning])

/-! ## Sample values used by witnesses -/

/-- Concrete crypto primitives for witnesses: hashes are 64 zero bytes. -/
def sampleCrypto : CryptoPrimitives :=
  { base64Decode := fun _ => [1, 2, 3]
    ecdhComputeKey := fun _ _ => [7]
    sha512 := fun _ => List.replicate 64 0
    ecPublicValue := fun _ => [9] }

/-- A consumer-side authentication session holding a 64-byte shared key. -/
def sampleBob : AuthenticationBob :=
  { instance_id := 5
    fingerprint := "fp"
    auth_data :=
      { hasSender := true
        auth_token := "T"
        password := "0000"
        shared_key := List.replicate 64 0 } }

/-! ## Claim C10 -/

/-- C10: the claim packages a true fact about `subspan` (its `assert` is the
strict `offset + count < count_`, so `offset + count = size` is rejected)
with "first(count) and last(count) accept count == size()".  The latter fails
at the concrete input `v = ByteView(nullptr, 0)`, `count = 0 = v.size()`:
`last` also asserts `count != 0`, so `last(0)` fails its precondition. -/
theorem C10_counterexample :
    ¬ ((∀ (v : ByteView) (offset count : Nat),
          offset + count = v.size → ¬ v.subspanPre offset count) ∧
       (∀ (v : ByteView) (count : Nat),
          count = v.size → v.firstPre count ∧ v.lastPre count)) := by
  intro h
  exact (h.2 ⟨0, 0⟩ 0 rfl).2.2 rfl

/-- C10 (amended): for every `ByteView` and every `offset + count = size()`,
`subspan(offset, count)` fails its `assert(offset + count < count_)`; and
`first(count)` accepts `count == size()`, while `last(count)` accepts
`count == size()` only for `count ≠ 0` (it additionally asserts
`count != 0`). -/
theorem C10_subspan_boundary :
    (∀ (v : ByteView) (offset count : Nat),
        offset + count = v.size → ¬ v.subspanPre offset count) ∧
    (∀ (v : ByteView) (count : Nat), count = v.size → v.firstPre count) ∧
    (∀ (v : ByteView) (count : Nat), count = v.size → count ≠ 0 → v.lastPre count) := by
  refine ⟨?_, ?_, ?_⟩
  · intro v offset count h
    simp only [ByteView.subspanPre, ByteView.size] at *
    omega
  · intro v count h
    simp only [ByteView.firstPre, ByteView.size] at *
    omega
  · intro v count h hne
    exact ⟨by simp only [ByteView.size] at h; omega, hne⟩

/-- C10 witness: the amended theorem applied at `v = ByteView(_, 8)`,
`offset = 3`, `count = 5` (so `offset + count = size`) and `count = 8`. -/
theorem C10_subspan_boundary_witness :
    ¬ (ByteView.mk 0 8).subspanPre 3 5 ∧
    (ByteView.mk 0 8).firstPre 8 ∧
    (ByteView.mk 0 8).lastPre 8 :=
  ⟨C10_subspan_boundary.1 ⟨0, 8⟩ 3 5 rfl,
   C10_subspan_boundary.2.1 ⟨0, 8⟩ 8 rfl,
   C10_subspan_boundary.2.2 ⟨0, 8⟩ 8 rfl (by decide)⟩

/-! ## Claim C8 -/

/-- C8: the SPAKE2 shared key equals the 64-byte SHA-512 hash of the P-256
ECDH shared secret (own private scalar with the peer public point)
concatenated with the password bytes, and the private scalar is exactly the
base64 decoding of the party's fingerprint.  The curve and hash primitives
are the crypto library's, abstracted at the exact call boundary of
`ComputeSharedKey`. -/
theorem C8_shared_key_composition :
    ∀ (cp : CryptoPrimitives) (fingerprint : String) (peer_public_value : List Nat)
      (password : String),
      (∀ x, (cp.sha512 x).length = 64) →
      ComputeSharedKey cp (ComputePrivateKey cp fingerprint) peer_public_value password =
        cp.sha512 (cp.ecdhComputeKey (cp.base64Decode fingerprint) peer_public_value ++
          stringBytes password) ∧
      (ComputeSharedKey cp (ComputePrivateKey cp fingerprint) peer_public_value
        password).length = 64 ∧
      ComputePrivateKey cp fingerprint = cp.base64Decode fingerprint := by
  intro cp fingerprint peer_public_value password hsha
  refine ⟨?_, ?_, rfl⟩
  · simp [ComputeSharedKey, ComputePrivateKey, sha512Final, sha512Update, sha512Init]
  · simp [ComputeSharedKey, sha512Final, hsha]

/-- C8 witness: the composition theorem at concrete primitives whose hash
output has length 64. -/
theorem C8_shared_key_composition_witness :
    ComputeSharedKey sampleCrypto (ComputePrivateKey sampleCrypto "fp") [4] "pw" =
      sampleCrypto.sha512 (sampleCrypto.ecdhComputeKey (sampleCrypto.base64Decode "fp") [4] ++
        stringBytes "pw") ∧
    (ComputeSharedKey sampleCrypto (ComputePrivateKey sampleCrypto "fp") [4] "pw").length = 64 ∧
    ComputePrivateKey sampleCrypto "fp" = sampleCrypto.base64Decode "fp" :=
  C8_shared_key_composition sampleCrypto "fp" [4] "pw" (fun _ => by simp [sampleCrypto])

/-! ## Claim C6 -/

/-- C6: on a successfully decoded `Spake2Confirmation`, the consumer compares
the received confirmation value byte-exactly against its stored 64-byte
shared key; on equality it sends `AuthStatus` with result `kAuthenticated`
and notifies `OnAuthenticationSucceed`, otherwise it sends result
`kProofInvalid` and notifies `OnAuthenticationFailed` with
`Error::Code::kInvalidAnswer`. -/
theorem C6_confirmation_check :
    ∀ (cp : CryptoPrimitives) (bob : AuthenticationBob) (conf : AuthSpake2Confirmation)
      (n : Nat),
      bob.auth_data.hasSender = true →
      bob.auth_data.shared_key.length = 64 →
      conf.confirmation_value.length = 64 →
      bob.OnStreamMessage cp (.confirmationMsg (.ok conf n)) =
        (if bob.auth_data.shared_key = conf.confirmation_value then
          (bob, [.sentStatus ⟨.kAuthenticated⟩, .onAuthenticationSucceed bob.instance_id],
           .ok n)
        else
          (bob, [.sentStatus ⟨.kProofInvalid⟩,
                 .onAuthenticationFailed bob.instance_id .kInvalidAnswer
                   "Authentication failed: shared key mismatch."],
           .ok n)) := by
  intro cp bob conf n hs h64 hc64
  have htake : conf.confirmation_value.take bob.auth_data.shared_key.length =
      conf.confirmation_value := by
    rw [h64, ← hc64, List.take_length]
  simp only [AuthenticationBob.OnStreamMessage, hs, htake]
  simp

/-- C6 witness: the confirmation-check theorem at a concrete session whose
64-byte stored key matches the received value. -/
theorem C6_confirmation_check_witness :
    sampleBob.OnStreamMessage sampleCrypto
        (.confirmationMsg (.ok ⟨List.replicate 64 0⟩ 70)) =
      (if sampleBob.auth_data.shared_key = List.replicate 64 0 then
        (sampleBob, [.sentStatus ⟨.kAuthenticated⟩,
                     .onAuthenticationSucceed sampleBob.instance_id], .ok 70)
      else
        (sampleBob, [.sentStatus ⟨.kProofInvalid⟩,
                     .onAuthenticationFailed sampleBob.instance_id .kInvalidAnswer
                       "Authentication failed: shared key mismatch."],
         .ok 70)) :=
  C6_confirmation_check sampleCrypto sampleBob ⟨List.replicate 64 0⟩ 70
    (by decide) (by simp [sampleBob]) (by simp)

/-! ## Claim C7 -/

/-- C7: on a successfully decoded `Spake2Handshake`, the consumer rejects an
absent or mismatched initiation token with `kInvalidAnswer`
("initiation token mismatch") and notifies `OnAuthenticationFailed`; with a
matching token but `psk_status = kPskNeedsPresentation` (neither `kPskShown`
nor `kPskInput`, an out-of-order handshake) it rejects with `kInvalidAnswer`
("receive wrong PSK status") and the session fails. -/
theorem C7_handshake_rejections :
    ∀ (cp : CryptoPrimitives) (bob : AuthenticationBob) (h : AuthSpake2Handshake) (n : Nat),
      bob.auth_data.hasSender = true →
      ((h.initiation_token.has_token = false ∨
          ¬ h.initiation_token.token = bob.auth_data.auth_token) →
        bob.OnStreamMessage cp (.handshakeMsg (.ok h n)) =
          (bob, [.onAuthenticationFailed bob.instance_id .kInvalidAnswer
                   "Authentication failed: initiation token mismatch."],
           .ok n)) ∧
      (h.initiation_token.has_token = true →
        h.initiation_token.token = bob.auth_data.auth_token →
        h.psk_status = .kPskNeedsPresentation →
        bob.OnStreamMessage cp (.handshakeMsg (.ok h n)) =
          (bob, [.onAuthenticationFailed bob.instance_id .kInvalidAnswer
                   "Authentication failed: receive wrong PSK status."],
           .ok n)) := by
  intro cp bob h n hs
  constructor
  · intro hmis
    simp only [AuthenticationBob.OnStreamMessage, hs]
    rcases hmis with hmis | hmis <;> simp [hmis]
  · intro ht htok hpsk
    simp [AuthenticationBob.OnStreamMessage, hs, ht, htok, hpsk]

/-- C7 witness: the rejection theorem at a concrete session, for a handshake
with a wrong token and for an out-of-order handshake with a matching token. -/
theorem C7_handshake_rejections_witness :
    sampleBob.OnStreamMessage sampleCrypto
        (.handshakeMsg (.ok ⟨⟨true, "WRONG"⟩, .kPskShown, [1]⟩ 11)) =
      (sampleBob, [.onAuthenticationFailed sampleBob.instance_id .kInvalidAnswer
                     "Authentication failed: initiation token mismatch."],
       .ok 11) ∧
    sampleBob.OnStreamMessage sampleCrypto
        (.handshakeMsg (.ok ⟨⟨true, "T"⟩, .kPskNeedsPresentation, [1]⟩ 12)) =
      (sampleBob, [.onAuthenticationFailed sampleBob.instance_id .kInvalidAnswer
                     "Authentication failed: receive wrong PSK status."],
       .ok 12) :=
  ⟨(C7_handshake_rejections sampleCrypto sampleBob ⟨⟨true, "WRONG"⟩, .kPskShown, [1]⟩ 11
      (by decide)).1 (Or.inr (by decide)),
   (C7_handshake_rejections sampleCrypto sampleBob ⟨⟨true, "T"⟩, .kPskNeedsPresentation, [1]⟩ 12
      (by decide)).2 rfl (by decide) rfl⟩

/-! ## Client state reachability

`ProtocolConnectionClient::State` has four values, but the client code only
ever assigns `kRunning` (in `Start`) and `kStopped` (in `Stop`), and the
initial value is `kStopped`; so `kStarting` / `kStopping` are unreachable.
-/

lemma QuicClient.step_state_preserved (c : QuicClient) (op : ClientOp)
    (h : c.state = .kStopped ∨ c.state = .kRunning) :
    (c.step op).1.state = .kStopped ∨ (c.step op).1.state = .kRunning := by
  cases op <;>
    simp only [QuicClient.step, QuicClient.Start, QuicClient.Stop, QuicClient.Connect,
      QuicClient.CancelConnectRequest, QuicClient.OnCryptoHandshakeComplete,
      QuicClient.OnConnectionClosed, QuicClient.OnReceiverAdded, QuicClient.cleanup,
      QuicClient.CloseAllConnections, QuicClient.CreatePendingConnection,
      QuicClient.StartConnectionRequest, QuicClient.CreateProtocolConnection] <;>
    (repeat' split) <;> simp_all

lemma QuicClient.runOps_state_preserved (ops : List ClientOp) :
    ∀ c : QuicClient, (c.state = .kStopped ∨ c.state = .kRunning) →
      ((c.runOps ops).1.state = .kStopped ∨ (c.runOps ops).1.state = .kRunning) := by
  induction ops with
  | nil => intro c h; simpa [QuicClient.runOps] using h
  | cons op ops ih =>
    intro c h
    simpa [QuicClient.runOps] using ih (c.step op).1 (c.step_state_preserved op h)

lemma ClientReachable.state_cases {c : QuicClient} (h : ClientReachable c) :
    c.state = .kStopped ∨ c.state = .kRunning := by
  obtain ⟨ops, rfl⟩ := h
  exact QuicClient.runOps_state_preserved ops QuicClient.init (Or.inl rfl)

/-! ## Claim C2 -/

/-- C2: each lifecycle operation succeeds exactly when its precondition state
holds and otherwise returns false without changing the state.  Server
(`QuicServer`): `Start` only from `kStopped` (moving to `kRunning` and
notifying `OnRunning`), `Stop` only from `kRunning` or `kSuspended`,
`Suspend` only from `kRunning`, `Resume` only from `kSuspended`; in
particular a repeated `Stop` from `kStopped` returns false with no effect
and a repeated `Suspend` from `kSuspended` returns false.  Client
(`QuicClient`, reachable states, which omit `kSuspended`): `Start` succeeds
exactly from `kStopped`, `Stop` exactly from `kRunning`. -/
theorem C2_lifecycle_preconditions :
    (∀ s : QuicServer,
      (s.Start.1 = true ↔ s.state = .kStopped) ∧
      (s.Start.1 = true →
        s.Start.2.1.state = .kRunning ∧ ServerEvent.onRunning ∈ s.Start.2.2) ∧
      (s.Start.1 = false → s.Start.2.1 = s ∧ s.Start.2.2 = []) ∧
      (s.Stop.1 = true ↔ (s.state = .kRunning ∨ s.state = .kSuspended)) ∧
      (s.Stop.1 = false → s.Stop.2.1 = s ∧ s.Stop.2.2 = []) ∧
      (s.Suspend.1 = true ↔ s.state = .kRunning) ∧
      (s.Suspend.1 = false → s.Suspend.2.1 = s ∧ s.Suspend.2.2 = []) ∧
      (s.Resume.1 = true ↔ s.state = .kSuspended) ∧
      (s.Resume.1 = false → s.Resume.2.1 = s ∧ s.Resume.2.2 = [])) ∧
    (∀ c : QuicClient, ClientReachable c →
      (c.Start.1 = true ↔ c.state = .kStopped) ∧
      (c.Start.1 = true →
        c.Start.2.1.state = .kRunning ∧ ClientEvent.onRunning ∈ c.Start.2.2) ∧
      (c.Start.1 = false → c.Start.2.1 = c ∧ c.Start.2.2 = []) ∧
      (c.Stop.1 = true ↔ c.state = .kRunning) ∧
      (c.Stop.1 = false → c.Stop.2.1 = c ∧ c.Stop.2.2 = [])) := by
  constructor
  · intro s
    cases hs : s.state <;>
      simp [QuicServer.Start, QuicServer.Stop, QuicServer.Suspend, QuicServer.Resume,
        QuicServer.CloseAllConnections, QuicServer.cleanup, hs]
  · intro c hreach
    rcases hreach.state_cases with hs | hs <;>
      simp [QuicClient.Start, QuicClient.Stop, QuicClient.cleanup,
        QuicClient.CloseAllConnections, hs]

/-- C2 witness: the lifecycle theorem at the initial server and the initial
(reachable) client: from `kStopped`, `Start` succeeds and repeated `Stop` /
`Suspend` / `Resume` fail. -/
theorem C2_lifecycle_preconditions_witness :
    (QuicServer.init.Start.1 = true ↔ QuicServer.init.state = .kStopped) ∧
    (QuicClient.init.Start.1 = true ↔ QuicClient.init.state = .kStopped) :=
  ⟨(C2_lifecycle_preconditions.1 QuicServer.init).1,
   (C2_lifecycle_preconditions.2 QuicClient.init ⟨[], rfl⟩).1⟩

/-! ## Claim C3 -/

lemma foldl_alistEraseKey_nil {κ α : Type} [DecidableEq κ] (l : List κ) :
    l.foldl (fun cs k => alistEraseKey k cs) ([] : List (κ × α)) = [] := by
  induction l with
  | nil => rfl
  | cons h t ih => simpa [alistEraseKey] using ih

lemma mem_closeAll_pending_events (l : List (String × PendingConnectionData))
    {e : String × PendingConnectionData} (he : e ∈ l) {cb : Nat × Nat}
    (hcb : cb ∈ e.2.callbacks) :
    ClientEvent.onConnectionFailed cb.2 cb.1 ∈
      l.foldr (fun e acc => ClientEvent.connClosed e.2.data.connId ::
        (e.2.callbacks.map (fun cb => ClientEvent.onConnectionFailed cb.2 cb.1) ++ acc))
        [] := by
  induction l with
  | nil => cases he
  | cons hd tl ih =>
    simp only [List.foldr]
    rcases List.mem_cons.1 he with rfl | htl
    · exact List.mem_cons.2 (Or.inr (List.mem_append.2 (Or.inl
        (List.mem_map.2 ⟨cb, hcb, rfl⟩))))
    · exact List.mem_cons.2 (Or.inr (List.mem_append.2 (Or.inr (ih htl))))

/-- C3: whenever `Stop()` succeeds, afterwards both connection tables are
empty, the instance map is cleared, the instance-id counter is reset to 1,
the per-instance request-id generator is reset, and (client) every waiter
still attached to a pending entry has received `OnConnectionFailed`. -/
theorem C3_stop_clears_tables :
    (∀ c : QuicClient, ¬ c.state = .kStopped →
      c.Stop.1 = true ∧
      c.Stop.2.1.pending_connections = [] ∧
      c.Stop.2.1.connections = [] ∧
      c.Stop.2.1.instance_map = [] ∧
      c.Stop.2.1.next_instance_number = 1 ∧
      c.Stop.2.1.instance_request_ids = [] ∧
      (∀ e ∈ c.pending_connections, ∀ cb ∈ e.2.callbacks,
        ClientEvent.onConnectionFailed cb.2 cb.1 ∈ c.Stop.2.2)) ∧
    (∀ s : QuicServer, (s.state = .kRunning ∨ s.state = .kSuspended) →
      s.Stop.1 = true ∧
      s.Stop.2.1.pending_connections = [] ∧
      s.Stop.2.1.connections = [] ∧
      s.Stop.2.1.instance_map = [] ∧
      s.Stop.2.1.next_instance_id = 1 ∧
      s.Stop.2.1.instance_request_ids = []) := by
  constructor
  · intro c h
    have hif : ¬ c.state = ClientState.kStopped := h
    refine ⟨?_, ?_, ?_, ?_, ?_, ?_, ?_⟩
    · simp [QuicClient.Stop, if_neg hif]
    · simp [QuicClient.Stop, QuicClient.CloseAllConnections, QuicClient.cleanup, if_neg hif]
    · simp [QuicClient.Stop, QuicClient.CloseAllConnections, QuicClient.cleanup, if_neg hif,
        foldl_alistEraseKey_nil]
    · simp [QuicClient.Stop, QuicClient.CloseAllConnections, QuicClient.cleanup, if_neg hif]
    · simp [QuicClient.Stop, QuicClient.CloseAllConnections, QuicClient.cleanup, if_neg hif]
    · simp [QuicClient.Stop, QuicClient.CloseAllConnections, QuicClient.cleanup, if_neg hif]
    · intro e he cb hcb
      simp only [QuicClient.Stop, QuicClient.CloseAllConnections, QuicClient.cleanup,
        if_neg hif, List.mem_append]
      have hm := mem_closeAll_pending_events c.pending_connections he hcb
      tauto
  · intro s hs
    have hif : ¬ (¬ s.state = EndpointState.kRunning ∧ ¬ s.state = EndpointState.kSuspended) := by
      rcases hs with hs | hs <;> simp [hs]
    refine ⟨?_, ?_, ?_, ?_, ?_, ?_⟩ <;>
      simp [QuicServer.Stop, QuicServer.CloseAllConnections, QuicServer.cleanup,
        if_neg hif, foldl_alistEraseKey_nil]

/-- A running client holding one pending connection with one waiter. -/
def sampleStopClient : QuicClient :=
  (QuicClient.runOps QuicClient.init
    [.start, .receiverAdded "X", .connect "X" 10 (some 7)]).1

/-- A running server (obtained by `Start` from the initial state). -/
def sampleRunningServer : QuicServer := QuicServer.init.Start.2.1

/-- C3 witness: the stop theorem at a concrete running client with a pending
waiter, and at a concrete running server. -/
theorem C3_stop_clears_tables_witness :
    (sampleStopClient.Stop.1 = true ∧
     sampleStopClient.Stop.2.1.next_instance_number = 1) ∧
    (sampleRunningServer.Stop.1 = true ∧
     sampleRunningServer.Stop.2.1.next_instance_id = 1) :=
  ⟨⟨(C3_stop_clears_tables.1 sampleStopClient (by decide)).1,
    (C3_stop_clears_tables.1 sampleStopClient (by decide)).2.2.2.2.1⟩,
   ⟨(C3_stop_clears_tables.2 sampleRunningServer (Or.inl (by decide))).1,
    (C3_stop_clears_tables.2 sampleRunningServer (Or.inl (by decide))).2.2.2.2.1⟩⟩

/-! ## Claim C1 -/

lemma alistFind_nil {κ α : Type} [DecidableEq κ] (k : κ) :
    alistFind k ([] : List (κ × α)) = none := rfl

lemma alistFind_cons_eq {κ α : Type} [DecidableEq κ] (k : κ) (e : κ × α)
    (l : List (κ × α)) (he : e.1 = k) : alistFind k (e :: l) = some e.2 := by
  simp [alistFind, List.find?_cons_of_pos, he]

lemma alistFind_cons_ne {κ α : Type} [DecidableEq κ] (k : κ) (e : κ × α)
    (l : List (κ × α)) (he : ¬ e.1 = k) : alistFind k (e :: l) = alistFind k l := by
  simp [alistFind, List.find?_cons_of_neg, he]

lemma alistFind_append_single_self {κ α : Type} [DecidableEq κ] (k : κ) (v : α)
    (l : List (κ × α)) (h : alistFind k l = none) :
    alistFind k (l ++ [(k, v)]) = some v := by
  induction l with
  | nil => simp [alistFind]
  | cons e t ih =>
    by_cases he : e.1 = k
    · rw [alistFind_cons_eq k e t he] at h
      cases h
    · rw [List.cons_append, alistFind_cons_ne k e _ he]
      rw [alistFind_cons_ne k e t he] at h
      exact ih h

lemma alistFind_emplace_self {κ α : Type} [DecidableEq κ] (k : κ) (v : α)
    (l : List (κ × α)) (h : alistFind k l = none) :
    alistFind k (alistEmplace k v l) = some v := by
  rw [alistEmplace, h]
  exact alistFind_append_single_self k v l h

lemma alistFind_setItem_self {κ α : Type} [DecidableEq κ] (k : κ) (v : α)
    (l : List (κ × α)) : alistFind k (alistSetItem k v l) = some v := by
  induction l with
  | nil => simp [alistSetItem, alistFind]
  | cons e t ih =>
    by_cases he : e.1 = k
    · rw [alistSetItem, alistFind_cons_eq k e t he]
      simp only [List.map_cons, if_pos he]
      exact alistFind_cons_eq k (k, v) _ rfl
    · rw [alistSetItem, alistFind_cons_ne k e t he]
      rw [alistSetItem] at ih
      cases hf : alistFind k t with
      | some w =>
        rw [hf] at ih
        simp only [List.map_cons, if_neg he]
        rw [alistFind_cons_ne k e _ he]
        exact ih
      | none =>
        rw [hf] at ih
        rw [List.cons_append, alistFind_cons_ne k e _ he]
        exact ih

lemma alistFind_eraseKey_self {κ α : Type} [DecidableEq κ] (k : κ) (l : List (κ × α)) :
    alistFind k (alistEraseKey k l) = none := by
  induction l with
  | nil => rfl
  | cons e t ih =>
    by_cases he : e.1 = k
    · simpa [alistEraseKey, he] using ih
    · have hstep : alistEraseKey k (e :: t) = e :: alistEraseKey k t := by
        simp [alistEraseKey, he]
      rw [hstep, alistFind_cons_ne k e _ he]
      exact ih

/-- C1: multiple concurrent `Connect` calls to the same instance name
coalesce onto the single pending entry (a further `Connect` appends its
fresh request id to that entry's waiter list and creates nothing new), and
when the QUIC crypto handshake completes the entry is moved to the
established table under the freshly allocated instance number while every
waiting callback receives `OnConnectionOpened` in registration order, each
with a protocol connection carrying that same new instance number. -/
theorem C1_coalesce_and_promote :
    ∀ (c : QuicClient) (name : String) (p : PendingConnectionData) (cb : Nat)
      (factory : Option Nat),
      c.state = .kRunning →
      alistFind name c.instance_map = none →
      alistFind name c.pending_connections = some p →
      alistFind c.next_instance_number c.connections = none →
      ((c.Connect name cb factory).1 = .success c.next_request_id ∧
       (c.Connect name cb factory).2.1.pending_connections =
         alistUpdate name
           (fun q => { q with callbacks := q.callbacks ++ [(c.next_request_id, cb)] })
           c.pending_connections ∧
       (c.Connect name cb factory).2.2 = []) ∧
      ((c.OnCryptoHandshakeComplete name).1 = c.next_instance_number ∧
       alistFind name (c.OnCryptoHandshakeComplete name).2.1.pending_connections = none ∧
       alistFind c.next_instance_number
         (c.OnCryptoHandshakeComplete name).2.1.connections = some p.data ∧
       alistFind name (c.OnCryptoHandshakeComplete name).2.1.instance_map =
         some c.next_instance_number ∧
       (c.OnCryptoHandshakeComplete name).2.2 =
         p.callbacks.map
           (fun cb' => ClientEvent.onConnectionOpened cb'.2 cb'.1 c.next_instance_number)) := by
  intro c name p cb factory hrun hmap hpend hconn
  constructor
  · simp [QuicClient.Connect, QuicClient.CreatePendingConnection, hrun, hmap, hpend]
  · refine ⟨?_, ?_, ?_, ?_, ?_⟩
    · simp [QuicClient.OnCryptoHandshakeComplete, hpend]
    · simp only [QuicClient.OnCryptoHandshakeComplete, hpend]
      exact alistFind_eraseKey_self name c.pending_connections
    · simp only [QuicClient.OnCryptoHandshakeComplete, hpend]
      exact alistFind_emplace_self c.next_instance_number p.data c.connections hconn
    · simp only [QuicClient.OnCryptoHandshakeComplete, hpend]
      exact alistFind_setItem_self name c.next_instance_number c.instance_map
    · simp [QuicClient.OnCryptoHandshakeComplete, hpend]

/-- A running client with one pending entry for "X" carrying two waiters
(request ids 1 and 2, callbacks 10 and 11, registered in that order). -/
def sampleTwoWaiterClient : QuicClient :=
  (QuicClient.runOps QuicClient.init
    [.start, .receiverAdded "X", .connect "X" 10 (some 7), .connect "X" 11 none]).1

/-- C1 witness: promotion on handshake completion at the concrete two-waiter
client: both waiters are fulfilled in registration order with instance
number 1. -/
theorem C1_coalesce_and_promote_witness :
    (sampleTwoWaiterClient.OnCryptoHandshakeComplete "X").1 =
      sampleTwoWaiterClient.next_instance_number ∧
    (sampleTwoWaiterClient.OnCryptoHandshakeComplete "X").2.2 =
      [ClientEvent.onConnectionOpened 10 1 sampleTwoWaiterClient.next_instance_number,
       ClientEvent.onConnectionOpened 11 2 sampleTwoWaiterClient.next_instance_number] :=
  ⟨(C1_coalesce_and_promote sampleTwoWaiterClient "X"
      ⟨⟨7, false⟩, [(1, 10), (2, 11)]⟩ 12 none (by decide) (by decide) (by decide)
      (by decide)).2.1,
   ((C1_coalesce_and_promote sampleTwoWaiterClient "X"
      ⟨⟨7, false⟩, [(1, 10), (2, 11)]⟩ 12 none (by decide) (by decide) (by decide)
      (by decide)).2.2.2.2.2).trans (by decide)⟩

/-! ## Claim C4 -/

lemma QuicClient.runOps_cons (c : QuicClient) (op : ClientOp) (ops : List ClientOp) :
    c.runOps (op :: ops) =
      (((c.step op).1.runOps ops).1,
       (c.step op).2.1 ++ ((c.step op).1.runOps ops).2.1,
       (c.step op).2.2 ++ ((c.step op).1.runOps ops).2.2) := by
  rcases hstep : c.step op with ⟨c1, ev, ids⟩
  rcases hrun : c1.runOps ops with ⟨c2, rest⟩
  simp [QuicClient.runOps, hstep, hrun]

/-- Every trace operation other than a `stop` either issues no instance
number and leaves the counter unchanged, or (a completed handshake with a
pending entry) issues exactly the current counter value and bumps it. -/
lemma QuicClient.step_issued (c : QuicClient) (op : ClientOp)
    (h0 : 1 ≤ c.next_instance_number) (hop : ¬ op = ClientOp.stop) :
    ((c.step op).2.2 = [] ∧
      (c.step op).1.next_instance_number = c.next_instance_number) ∨
    ((c.step op).2.2 = [c.next_instance_number] ∧
      (c.step op).1.next_instance_number = c.next_instance_number + 1) := by
  cases op <;>
    simp only [QuicClient.step, QuicClient.Start, QuicClient.Connect,
      QuicClient.CancelConnectRequest, QuicClient.OnCryptoHandshakeComplete,
      QuicClient.OnConnectionClosed, QuicClient.OnReceiverAdded, QuicClient.cleanup,
      QuicClient.CloseAllConnections, QuicClient.CreatePendingConnection,
      QuicClient.StartConnectionRequest, QuicClient.CreateProtocolConnection] <;>
    (repeat' split) <;> simp_all

lemma QuicClient.runOps_issued (ops : List ClientOp) :
    ∀ c : QuicClient, 1 ≤ c.next_instance_number →
      (∀ op ∈ ops, ¬ op = ClientOp.stop) →
      c.next_instance_number ≤ (c.runOps ops).1.next_instance_number ∧
      (∀ i ∈ (c.runOps ops).2.2,
        c.next_instance_number ≤ i ∧ i < (c.runOps ops).1.next_instance_number) ∧
      List.Chain' (· < ·) (c.runOps ops).2.2 := by
  induction ops with
  | nil => intro c h0 _; simp [QuicClient.runOps]
  | cons op ops ih =>
    intro c h0 hns
    have hop : ¬ op = ClientOp.stop := hns op (List.mem_cons_self op ops)
    have hns' : ∀ op' ∈ ops, ¬ op' = ClientOp.stop :=
      fun op' h => hns op' (List.mem_cons_of_mem op h)
    rw [QuicClient.runOps_cons]
    rcases c.step_issued op h0 hop with ⟨hid, hnum⟩ | ⟨hid, hnum⟩
    · have h0' : 1 ≤ (c.step op).1.next_instance_number := by omega
      obtain ⟨hmono, hbound, hchain⟩ := ih (c.step op).1 h0' hns'
      rw [hid]
      simp only [List.nil_append]
      exact ⟨by omega, fun i hi => by have := hbound i hi; omega, hchain⟩
    · have h0' : 1 ≤ (c.step op).1.next_instance_number := by omega
      obtain ⟨hmono, hbound, hchain⟩ := ih (c.step op).1 h0' hns'
      rw [hid]
      simp only [List.cons_append, List.nil_append]
      refine ⟨by omega, ?_, ?_⟩
      · intro i hi
        rcases List.mem_cons.1 hi with rfl | hi
        · omega
        · have := hbound i hi
          omega
      · refine List.chain'_cons'.2 ⟨?_, hchain⟩
        intro y hy
        have := hbound y (List.mem_of_mem_head? hy)
        omega

/-- C4 counterexample: instance ids are NOT never-reused across the whole
process lifetime.  `Stop()` resets `next_instance_number_` to 1
(`CloseAllConnections`), so after a `Stop()`/`Start()` cycle the same id 1
is issued again: the concrete trace below issues `[1, 1]`, which is neither
strictly increasing nor reuse-free. -/
theorem C4_counterexample :
    (QuicClient.runOps QuicClient.init
      [.start, .receiverAdded "X", .connect "X" 0 (some 7), .handshake "X",
       .stop, .start, .connect "X" 0 (some 8), .handshake "X"]).2.2 = [1, 1] ∧
    ¬ List.Pairwise (fun a b => ¬ a = b)
        ((QuicClient.runOps QuicClient.init
          [.start, .receiverAdded "X", .connect "X" 0 (some 7), .handshake "X",
           .stop, .start, .connect "X" 0 (some 8), .handshake "X"]).2.2) ∧
    ¬ List.Chain' (· < ·)
        ((QuicClient.runOps QuicClient.init
          [.start, .receiverAdded "X", .connect "X" 0 (some 7), .handshake "X",
           .stop, .start, .connect "X" 0 (some 8), .handshake "X"]).2.2) := by
  have hval : (QuicClient.runOps QuicClient.init
      [.start, .receiverAdded "X", .connect "X" 0 (some 7), .handshake "X",
       .stop, .start, .connect "X" 0 (some 8), .handshake "X"]).2.2 = [1, 1] := by
    decide
  refine ⟨hval, ?_, ?_⟩
  · intro h
    rw [hval] at h
    exact (List.pairwise_cons.1 h).1 1 (List.mem_singleton.2 rfl) rfl
  · intro h
    rw [hval] at h
    exact absurd (List.chain'_cons.1 h).1 (by omega)

/-- C4 (amended): within one process lifetime BETWEEN `Stop()` calls — i.e.
along any trace containing no `stop` operation and starting from a counter
value ≥ 1 (every reachable value) — the instance ids issued on handshake
completion are strictly increasing, never 0 and never reused; `Stop()`
resets the counter to 1, so ids ARE reused across `Stop()`/`Start()`
cycles. -/
theorem C4_ids_increasing_within_epoch :
    ∀ (c : QuicClient) (ops : List ClientOp),
      1 ≤ c.next_instance_number →
      (∀ op ∈ ops, ¬ op = ClientOp.stop) →
      List.Chain' (· < ·) (c.runOps ops).2.2 ∧
      (∀ i ∈ (c.runOps ops).2.2, ¬ i = 0) ∧
      List.Pairwise (fun a b => ¬ a = b) (c.runOps ops).2.2 := by
  intro c ops h0 hns
  obtain ⟨_, hbound, hchain⟩ := QuicClient.runOps_issued ops c h0 hns
  refine ⟨hchain, ?_, ?_⟩
  · intro i hi
    have := hbound i hi
    omega
  · have hp : List.Pairwise (· < ·) (c.runOps ops).2.2 :=
      List.chain'_iff_pairwise.1 hchain
    exact hp.imp (fun hlt => by omega)

/-- C4 witness: the amended theorem at the initial client and a no-stop
trace issuing two handshakes for two different instance names. -/
theorem C4_ids_increasing_within_epoch_witness :
    List.Chain' (· < ·)
      ((QuicClient.init.runOps
        [.start, .receiverAdded "X", .receiverAdded "Y",
         .connect "X" 0 (some 7), .connect "Y" 0 (some 8),
         .handshake "X", .handshake "Y"]).2.2) ∧
    (∀ i ∈ (QuicClient.init.runOps
        [.start, .receiverAdded "X", .receiverAdded "Y",
         .connect "X" 0 (some 7), .connect "Y" 0 (some 8),
         .handshake "X", .handshake "Y"]).2.2, ¬ i = 0) ∧
    List.Pairwise (fun a b => ¬ a = b)
      ((QuicClient.init.runOps
        [.start, .receiverAdded "X", .receiverAdded "Y",
         .connect "X" 0 (some 7), .connect "Y" 0 (some 8),
         .handshake "X", .handshake "Y"]).2.2) :=
  C4_ids_increasing_within_epoch QuicClient.init
    [.start, .receiverAdded "X", .receiverAdded "Y",
     .connect "X" 0 (some 7), .connect "Y" 0 (some 8),
     .handshake "X", .handshake "Y"]
    (by decide) (by decide)

/-! ## Claim C9 -/

/-- C9: evidence that the claimed invariant FAILS and the source's own
`OSP_CHECK(immediate_result)` can fire.  `OnConnectionClosed` queues the
instance for deletion and the next `Cleanup` erases its `connections_`
record, but nothing erases the `instance_map_` entry; a subsequent
`Connect` to the same instance name then finds a stale instance number,
`CreateProtocolConnection` returns null, and the check fails.  Concretely:
start, discover "X", connect, complete the handshake (instance number 1),
close the connection, run a cleanup tick, connect to "X" again. -/
theorem C9_stale_instance_map_check_fires :
    alistFind "X" ((QuicClient.runOps QuicClient.init
      [.start, .receiverAdded "X", .connect "X" 0 (some 7), .handshake "X",
       .connectionClosed 1, .runCleanup]).1.instance_map) = some 1 ∧
    alistFind 1 ((QuicClient.runOps QuicClient.init
      [.start, .receiverAdded "X", .connect "X" 0 (some 7), .handshake "X",
       .connectionClosed 1, .runCleanup]).1.connections) = none ∧
    ((QuicClient.runOps QuicClient.init
      [.start, .receiverAdded "X", .connect "X" 0 (some 7), .handshake "X",
       .connectionClosed 1, .runCleanup]).1.Connect "X" 0 none).1 =
      ConnectResult.checkFailed := by
  refine ⟨by decide, by decide, by decide⟩

/-! ## Claim C5 -/

/-- All request ids attached to waiters of the given pending table, in table
order then registration order. -/
def pendingRequestIdsOf (l : List (String × PendingConnectionData)) : List Nat :=
  (l.map (fun e => e.2.callbacks.map (fun cb => cb.1))).flatten

/-- All request ids attached to waiters of the client's pending entries. -/
def pendingRequestIds (c : QuicClient) : List Nat :=
  pendingRequestIdsOf c.pending_connections

lemma pendingRequestIdsOf_append (l₁ l₂ : List (String × PendingConnectionData)) :
    pendingRequestIdsOf (l₁ ++ l₂) = pendingRequestIdsOf l₁ ++ pendingRequestIdsOf l₂ := by
  simp [pendingRequestIdsOf]

lemma pendingRequestIdsOf_cons (e : String × PendingConnectionData)
    (l : List (String × PendingConnectionData)) :
    pendingRequestIdsOf (e :: l) =
      e.2.callbacks.map (fun cb => cb.1) ++ pendingRequestIdsOf l := by
  simp [pendingRequestIdsOf]

lemma mem_pendingRequestIdsOf {r : Nat} {l : List (String × PendingConnectionData)} :
    r ∈ pendingRequestIdsOf l ↔ ∃ e ∈ l, ∃ cb ∈ e.2.callbacks, cb.1 = r := by
  simp only [pendingRequestIdsOf, List.mem_flatten, List.mem_map]
  constructor
  · rintro ⟨_, ⟨e, he, rfl⟩, hr⟩
    obtain ⟨cb, hcb, hcbr⟩ := List.mem_map.1 hr
    exact ⟨e, he, cb, hcb, hcbr⟩
  · rintro ⟨e, he, cb, hcb, hcbr⟩
    exact ⟨_, ⟨e, he, rfl⟩, List.mem_map.2 ⟨cb, hcb, hcbr⟩⟩

lemma alistFind_of_skip {κ α : Type} [DecidableEq κ] (k : κ) (l : List (κ × α))
    (h : ∀ e ∈ l, ¬ e.1 = k) : alistFind k l = none := by
  induction l with
  | nil => rfl
  | cons e t ih =>
    rw [alistFind_cons_ne k e t (h e (List.mem_cons_self e t))]
    exact ih (fun e' he' => h e' (List.mem_cons_of_mem e he'))

lemma alistFind_append_of_skip {κ α : Type} [DecidableEq κ] (k : κ)
    (l₁ l₂ : List (κ × α)) (h : ∀ e ∈ l₁, ¬ e.1 = k) :
    alistFind k (l₁ ++ l₂) = alistFind k l₂ := by
  induction l₁ with
  | nil => rfl
  | cons e t ih =>
    rw [List.cons_append, alistFind_cons_ne k e _ (h e (List.mem_cons_self e t))]
    exact ih (fun e' he' => h e' (List.mem_cons_of_mem e he'))

lemma alistFind_append_middle_ne {κ α : Type} [DecidableEq κ] (k : κ) (e : κ × α)
    (l₁ l₂ : List (κ × α)) (he : ¬ e.1 = k) :
    alistFind k (l₁ ++ e :: l₂) = alistFind k (l₁ ++ l₂) := by
  induction l₁ with
  | nil => exact alistFind_cons_ne k e l₂ he
  | cons a t ih =>
    by_cases ha : a.1 = k
    · rw [List.cons_append, alistFind_cons_eq k a _ ha, List.cons_append,
        alistFind_cons_eq k a _ ha]
    · rw [List.cons_append, alistFind_cons_ne k a _ ha, List.cons_append,
        alistFind_cons_ne k a _ ha]
      exact ih

lemma alistFind_eq_some_split {κ α : Type} [DecidableEq κ] {k : κ} {v : α}
    {l : List (κ × α)} (h : alistFind k l = some v) :
    ∃ l₁ l₂, l = l₁ ++ (k, v) :: l₂ ∧ ∀ e ∈ l₁, ¬ e.1 = k := by
  induction l with
  | nil => cases h
  | cons e t ih =>
    by_cases he : e.1 = k
    · rw [alistFind_cons_eq k e t he] at h
      obtain ⟨a, b⟩ := e
      simp only at he h
      subst he
      obtain rfl : b = v := by injection h
      exact ⟨[], t, rfl, by simp⟩
    · rw [alistFind_cons_ne k e t he] at h
      obtain ⟨l₁, l₂, rfl, hl₁⟩ := ih h
      refine ⟨e :: l₁, l₂, rfl, ?_⟩
      intro x hx
      rcases List.mem_cons.1 hx with rfl | hx
      · exact he
      · exact hl₁ x hx

lemma length_filter_lt_of_mem {α : Type} (p : α → Bool) (l : List α) (x : α)
    (hx : x ∈ l) (hpx : p x = false) : (l.filter p).length < l.length := by
  induction l with
  | nil => cases hx
  | cons a t ih =>
    rcases List.mem_cons.1 hx with rfl | hx
    · rw [List.filter_cons, hpx]
      simp only [Bool.false_eq_true, if_false, List.length_cons]
      exact Nat.lt_succ_of_le (List.length_filter_le p t)
    · rw [List.filter_cons]
      cases hpa : p a
      · simp only [Bool.false_eq_true, if_false, List.length_cons]
        exact Nat.lt_succ_of_lt (ih hx)
      · simp only [if_true, List.length_cons]
        exact Nat.succ_lt_succ (ih hx)

lemma cancelLoop_skip (rid : Nat) (l : List (String × PendingConnectionData))
    (h : ∀ e ∈ l, (∀ cb ∈ e.2.callbacks, ¬ cb.1 = rid) ∧ ¬ e.2.callbacks = []) :
    cancelLoop rid l = (l, []) := by
  induction l with
  | nil => rfl
  | cons e t ih =>
    obtain ⟨hno, hne⟩ := h e (List.mem_cons_self e t)
    have hfilter : e.2.callbacks.filter (fun cb => ¬ cb.1 = rid) = e.2.callbacks :=
      List.filter_eq_self.2 (fun cb hcb => by simpa using hno cb hcb)
    have hemp : e.2.callbacks.isEmpty = false := by
      cases hc : e.2.callbacks with
      | nil => exact absurd hc hne
      | cons a b => rfl
    simp only [cancelLoop, hfilter, hemp, Bool.false_eq_true, if_false,
      lt_self_iff_false, ih (fun e' he' => h e' (List.mem_cons_of_mem e he'))]

lemma cancelLoop_found (rid : Nat) (e : String × PendingConnectionData)
    (hrid : ∃ cb ∈ e.2.callbacks, cb.1 = rid) :
    ∀ (l₁ : List (String × PendingConnectionData))
      (l₂ : List (String × PendingConnectionData)),
    (∀ e' ∈ l₁, (∀ cb ∈ e'.2.callbacks, ¬ cb.1 = rid) ∧ ¬ e'.2.callbacks = []) →
    cancelLoop rid (l₁ ++ e :: l₂) =
      (if (e.2.callbacks.filter (fun cb => ¬ cb.1 = rid)).isEmpty then
        (l₁ ++ l₂, [ClientEvent.connClosed e.2.data.connId])
      else
        (l₁ ++ (e.1,
          { e.2 with callbacks := e.2.callbacks.filter (fun cb => ¬ cb.1 = rid) }) :: l₂,
         [])) := by
  intro l₁
  induction l₁ with
  | nil =>
    intro l₂ _
    obtain ⟨cb, hcb, hcbr⟩ := hrid
    have hlt : (e.2.callbacks.filter (fun cb => ¬ cb.1 = rid)).length <
        e.2.callbacks.length :=
      length_filter_lt_of_mem _ _ cb hcb (by simp [hcbr])
    simp only [List.nil_append, cancelLoop]
    by_cases hemp : (e.2.callbacks.filter (fun cb => ¬ cb.1 = rid)).isEmpty = true
    · rw [if_pos hemp, if_pos hemp]
    · rw [if_neg hemp, if_neg hemp, if_pos hlt]
  | cons a t ih =>
    intro l₂ h
    obtain ⟨hno, hne⟩ := h a (List.mem_cons_self a t)
    have hfilter : a.2.callbacks.filter (fun cb => ¬ cb.1 = rid) = a.2.callbacks :=
      List.filter_eq_self.2 (fun cb hcb => by simpa using hno cb hcb)
    have hemp : a.2.callbacks.isEmpty = false := by
      cases hc : a.2.callbacks with
      | nil => exact absurd hc hne
      | cons x y => rfl
    simp only [List.cons_append, cancelLoop, hfilter, hemp, Bool.false_eq_true, if_false,
      lt_self_iff_false]
    simp only [List.append_eq]
    rw [ih l₂ (fun e' he' => h e' (List.mem_cons_of_mem a he'))]
    by_cases hc : (e.2.callbacks.filter (fun cb => ¬ cb.1 = rid)).isEmpty = true
    · rw [if_pos hc, if_pos hc]
    · rw [if_neg hc, if_neg hc]

lemma alistFind_some_mem {κ α : Type} [DecidableEq κ] {k : κ} {v : α}
    {l : List (κ × α)} (h : alistFind k l = some v) : (k, v) ∈ l := by
  obtain ⟨l₁, l₂, rfl, _⟩ := alistFind_eq_some_split h
  exact List.mem_append.2 (Or.inr (List.mem_cons_self _ _))

lemma pendingRequestIdsOf_eraseKey_subset (k : String)
    (l : List (String × PendingConnectionData)) (r : Nat)
    (hr : r ∈ pendingRequestIdsOf (alistEraseKey k l)) : r ∈ pendingRequestIdsOf l := by
  obtain ⟨e, he, cb, hcb, hcbr⟩ := mem_pendingRequestIdsOf.1 hr
  exact mem_pendingRequestIdsOf.2 ⟨e, List.mem_of_mem_filter he, cb, hcb, hcbr⟩

lemma pendingRequestIdsOf_update_append_mem (k : String) (rid cbid : Nat)
    (l : List (String × PendingConnectionData)) (r : Nat)
    (hr : r ∈ pendingRequestIdsOf (alistUpdate k
      (fun p => { p with callbacks := p.callbacks ++ [(rid, cbid)] }) l)) :
    r ∈ pendingRequestIdsOf l ∨ r = rid := by
  obtain ⟨e, he, cb, hcb, hcbr⟩ := mem_pendingRequestIdsOf.1 hr
  obtain ⟨e₀, he₀, heq⟩ := List.mem_map.1 he
  by_cases hk : e₀.1 = k
  · rw [if_pos hk] at heq
    subst heq
    simp only at hcb
    rcases List.mem_append.1 hcb with hcb | hcb
    · exact Or.inl (mem_pendingRequestIdsOf.2 ⟨e₀, he₀, cb, hcb, hcbr⟩)
    · rcases List.mem_singleton.1 hcb with rfl
      exact Or.inr hcbr.symm
  · rw [if_neg hk] at heq
    subst heq
    exact Or.inl (mem_pendingRequestIdsOf.2 ⟨e₀, he₀, cb, hcb, hcbr⟩)

lemma cancelLoop_rids_subset (rid : Nat) (l : List (String × PendingConnectionData)) :
    ∀ r, r ∈ pendingRequestIdsOf (cancelLoop rid l).1 → r ∈ pendingRequestIdsOf l := by
  induction l with
  | nil => intro r hr; simpa [cancelLoop] using hr
  | cons e t ih =>
    intro r hr
    simp only [cancelLoop] at hr
    by_cases h1 : (e.2.callbacks.filter (fun cb => ¬ cb.1 = rid)).isEmpty = true
    · rw [if_pos h1] at hr
      rw [pendingRequestIdsOf_cons]
      exact List.mem_append.2 (Or.inr hr)
    · rw [if_neg h1] at hr
      by_cases h2 : (e.2.callbacks.filter (fun cb => ¬ cb.1 = rid)).length <
          e.2.callbacks.length
      · rw [if_pos h2] at hr
        rw [pendingRequestIdsOf_cons] at hr ⊢
        rcases List.mem_append.1 hr with hr | hr
        · obtain ⟨cb, hcb, hcbr⟩ := List.mem_map.1 hr
          exact List.mem_append.2 (Or.inl
            (List.mem_map.2 ⟨cb, List.mem_of_mem_filter hcb, hcbr⟩))
        · exact List.mem_append.2 (Or.inr hr)
      · rw [if_neg h2] at hr
        rcases hc : cancelLoop rid t with ⟨rest, ev⟩
        rw [hc] at hr
        simp only at hr
        rw [pendingRequestIdsOf_cons] at hr ⊢
        rcases List.mem_append.1 hr with hr | hr
        · exact List.mem_append.2 (Or.inl hr)
        · have := ih r (by rw [hc]; exact hr)
          exact List.mem_append.2 (Or.inr this)

lemma cancelLoop_events_shape (rid : Nat) (l : List (String × PendingConnectionData)) :
    (cancelLoop rid l).2 = [] ∨
      ∃ cid, (cancelLoop rid l).2 = [ClientEvent.connClosed cid] := by
  induction l with
  | nil => exact Or.inl rfl
  | cons e t ih =>
    simp only [cancelLoop]
    by_cases h1 : (e.2.callbacks.filter (fun cb => ¬ cb.1 = rid)).isEmpty = true
    · rw [if_pos h1]
      exact Or.inr ⟨e.2.data.connId, rfl⟩
    · rw [if_neg h1]
      by_cases h2 : (e.2.callbacks.filter (fun cb => ¬ cb.1 = rid)).length <
          e.2.callbacks.length
      · rw [if_pos h2]
        exact Or.inl rfl
      · rw [if_neg h2]
        rcases hc : cancelLoop rid t with ⟨rest, ev⟩
        rw [hc] at ih
        simpa using ih

lemma closeAll_no_opened (l : List (String × PendingConnectionData))
    (cbid r n : Nat) :
    ¬ ClientEvent.onConnectionOpened cbid r n ∈
      l.foldr (fun e acc => ClientEvent.connClosed e.2.data.connId ::
        (e.2.callbacks.map (fun cb => ClientEvent.onConnectionFailed cb.2 cb.1) ++ acc))
        [] := by
  induction l with
  | nil => simp
  | cons e t ih =>
    intro hmem
    simp only [List.foldr, List.mem_cons, List.mem_append] at hmem
    rcases hmem with h | h
    · cases h
    · rcases h with h | h
      · obtain ⟨cb, _, h⟩ := List.mem_map.1 h
        cases h
      · exact ih h

/-- Request-id bookkeeping of one trace step: the request-id counter never
decreases; any waiter id present after the step was present before or is the
freshly allocated counter value (in which case the counter was bumped); and
any `OnConnectionOpened` event carries a request id that was waiting before
the step or is the freshly allocated counter value. -/
lemma QuicClient.step_request_ids (c : QuicClient) (op : ClientOp) :
    c.next_request_id ≤ (c.step op).1.next_request_id ∧
    (∀ r, r ∈ pendingRequestIds (c.step op).1 →
      r ∈ pendingRequestIds c ∨
        (r = c.next_request_id ∧
          (c.step op).1.next_request_id = c.next_request_id + 1)) ∧
    (∀ cbid r n, ClientEvent.onConnectionOpened cbid r n ∈ (c.step op).2.1 →
      r ∈ pendingRequestIds c ∨ r = c.next_request_id) := by
  cases op with
  | start =>
    by_cases hs : c.state = ClientState.kRunning
    · refine ⟨?_, ?_, ?_⟩
      · simp [QuicClient.step, QuicClient.Start, hs]
      · intro r hr
        exact Or.inl (by simpa [QuicClient.step, QuicClient.Start, hs] using hr)
      · intro cbid r n hmem
        simp [QuicClient.step, QuicClient.Start, hs] at hmem
    · refine ⟨?_, ?_, ?_⟩
      · simp [QuicClient.step, QuicClient.Start, hs, QuicClient.cleanup]
      · intro r hr
        exact Or.inl (by
          simpa [QuicClient.step, QuicClient.Start, hs, QuicClient.cleanup,
            pendingRequestIds] using hr)
      · intro cbid r n hmem
        simp [QuicClient.step, QuicClient.Start, hs, QuicClient.cleanup] at hmem
  | stop =>
    by_cases hs : c.state = ClientState.kStopped
    · refine ⟨?_, ?_, ?_⟩
      · simp [QuicClient.step, QuicClient.Stop, hs]
      · intro r hr
        exact Or.inl (by simpa [QuicClient.step, QuicClient.Stop, hs] using hr)
      · intro cbid r n hmem
        simp [QuicClient.step, QuicClient.Stop, hs] at hmem
    · refine ⟨?_, ?_, ?_⟩
      · simp [QuicClient.step, QuicClient.Stop, hs, QuicClient.CloseAllConnections,
          QuicClient.cleanup]
      · intro r hr
        simp [QuicClient.step, QuicClient.Stop, hs, QuicClient.CloseAllConnections,
          QuicClient.cleanup, pendingRequestIds, pendingRequestIdsOf] at hr
      · intro cbid r n hmem
        simp only [QuicClient.step, QuicClient.Stop, hs, Bool.false_eq_true, if_false,
          QuicClient.CloseAllConnections, QuicClient.cleanup, List.mem_append,
          List.mem_singleton] at hmem
        rcases hmem with ((h | h) | h) | h
        · exact absurd h (closeAll_no_opened c.pending_connections cbid r n)
        · obtain ⟨e, _, heq⟩ := List.mem_map.1 h
          cases heq
        · obtain ⟨e, _, heq⟩ := List.mem_map.1 h
          cases heq
        · cases h
  | receiverAdded name =>
    refine ⟨?_, ?_, ?_⟩
    · simp only [QuicClient.step, QuicClient.OnReceiverAdded]
      split <;> simp
    · intro r hr
      refine Or.inl ?_
      simp only [QuicClient.step, QuicClient.OnReceiverAdded] at hr
      split at hr <;> simpa [pendingRequestIds] using hr
    · intro cbid r n hmem
      simp [QuicClient.step] at hmem
  | connect name cbk factory =>
    by_cases hs : c.state = ClientState.kRunning
    · cases hm : alistFind name c.instance_map with
      | some m =>
        cases hcp : c.CreateProtocolConnection m with
        | none =>
          refine ⟨?_, ?_, ?_⟩
          · simp [QuicClient.step, QuicClient.Connect, hs, hm, hcp]
          · intro r hr
            exact Or.inl (by
              simpa [QuicClient.step, QuicClient.Connect, hs, hm, hcp] using hr)
          · intro cbid r n hmem
            simp [QuicClient.step, QuicClient.Connect, hs, hm, hcp] at hmem
        | some pc =>
          refine ⟨?_, ?_, ?_⟩
          · simp [QuicClient.step, QuicClient.Connect, hs, hm, hcp]
          · intro r hr
            exact Or.inl (by
              simpa [QuicClient.step, QuicClient.Connect, hs, hm, hcp] using hr)
          · intro cbid r n hmem
            simp [QuicClient.step, QuicClient.Connect, hs, hm, hcp] at hmem
            exact Or.inr hmem.2.1
      | none =>
        cases hp : alistFind name c.pending_connections with
        | some p =>
          refine ⟨?_, ?_, ?_⟩
          · simp [QuicClient.step, QuicClient.Connect, QuicClient.CreatePendingConnection,
              hs, hm, hp]
          · intro r hr
            have hr' : r ∈ pendingRequestIdsOf (alistUpdate name
                (fun q => { q with callbacks := q.callbacks ++ [(c.next_request_id, cbk)] })
                c.pending_connections) := by
              simpa [QuicClient.step, QuicClient.Connect,
                QuicClient.CreatePendingConnection, hs, hm, hp, pendingRequestIds] using hr
            rcases pendingRequestIdsOf_update_append_mem name c.next_request_id cbk
                c.pending_connections r hr' with h | h
            · exact Or.inl h
            · refine Or.inr ⟨h, ?_⟩
              simp [QuicClient.step, QuicClient.Connect,
                QuicClient.CreatePendingConnection, hs, hm, hp]
          · intro cbid r n hmem
            simp [QuicClient.step, QuicClient.Connect, QuicClient.CreatePendingConnection,
              hs, hm, hp] at hmem
        | none =>
          by_cases hinfo : name ∈ c.instance_infos
          · cases factory with
            | none =>
              refine ⟨?_, ?_, ?_⟩
              · simp [QuicClient.step, QuicClient.Connect,
                  QuicClient.CreatePendingConnection, QuicClient.StartConnectionRequest,
                  hs, hm, hp, hinfo]
              · intro r hr
                exact Or.inl (by
                  simpa [QuicClient.step, QuicClient.Connect,
                    QuicClient.CreatePendingConnection, QuicClient.StartConnectionRequest,
                    hs, hm, hp, hinfo] using hr)
              · intro cbid r n hmem
                simp [QuicClient.step, QuicClient.Connect,
                  QuicClient.CreatePendingConnection, QuicClient.StartConnectionRequest,
                  hs, hm, hp, hinfo] at hmem
            | some connId =>
              have hids : pendingRequestIdsOf (alistEmplace name
                  ⟨⟨connId, false⟩, []⟩ c.pending_connections) = pendingRequestIds c := by
                rw [alistEmplace, hp, pendingRequestIdsOf_append]
                simp [pendingRequestIdsOf, pendingRequestIds]
              refine ⟨?_, ?_, ?_⟩
              · simp [QuicClient.step, QuicClient.Connect,
                  QuicClient.CreatePendingConnection, QuicClient.StartConnectionRequest,
                  hs, hm, hp, hinfo]
              · intro r hr
                have hr' : r ∈ pendingRequestIdsOf (alistUpdate name
                    (fun q =>
                      { q with callbacks := q.callbacks ++ [(c.next_request_id, cbk)] })
                    (alistEmplace name ⟨⟨connId, false⟩, []⟩ c.pending_connections)) := by
                  simpa [QuicClient.step, QuicClient.Connect,
                    QuicClient.CreatePendingConnection, QuicClient.StartConnectionRequest,
                    hs, hm, hp, hinfo, pendingRequestIds] using hr
                rcases pendingRequestIdsOf_update_append_mem name c.next_request_id cbk
                    _ r hr' with h | h
                · exact Or.inl (hids ▸ h)
                · refine Or.inr ⟨h, ?_⟩
                  simp [QuicClient.step, QuicClient.Connect,
                    QuicClient.CreatePendingConnection, QuicClient.StartConnectionRequest,
                    hs, hm, hp, hinfo]
              · intro cbid r n hmem
                simp [QuicClient.step, QuicClient.Connect,
                  QuicClient.CreatePendingConnection, QuicClient.StartConnectionRequest,
                  hs, hm, hp, hinfo] at hmem
          · refine ⟨?_, ?_, ?_⟩
            · simp [QuicClient.step, QuicClient.Connect,
                QuicClient.CreatePendingConnection, QuicClient.StartConnectionRequest,
                hs, hm, hp, hinfo]
            · intro r hr
              exact Or.inl (by
                simpa [QuicClient.step, QuicClient.Connect,
                  QuicClient.CreatePendingConnection, QuicClient.StartConnectionRequest,
                  hs, hm, hp, hinfo] using hr)
            · intro cbid r n hmem
              simp [QuicClient.step, QuicClient.Connect,
                QuicClient.CreatePendingConnection, QuicClient.StartConnectionRequest,
                hs, hm, hp, hinfo] at hmem
    · refine ⟨?_, ?_, ?_⟩
      · simp [QuicClient.step, QuicClient.Connect, hs]
      · intro r hr
        exact Or.inl (by simpa [QuicClient.step, QuicClient.Connect, hs] using hr)
      · intro cbid r n hmem
        simp [QuicClient.step, QuicClient.Connect, hs] at hmem
  | cancel rid' =>
    refine ⟨?_, ?_, ?_⟩
    · simp [QuicClient.step, QuicClient.CancelConnectRequest]
    · intro r hr
      refine Or.inl ?_
      have hr' : r ∈ pendingRequestIdsOf (cancelLoop rid' c.pending_connections).1 := by
        simpa [QuicClient.step, QuicClient.CancelConnectRequest, pendingRequestIds] using hr
      exact cancelLoop_rids_subset rid' c.pending_connections r hr'
    · intro cbid r n hmem
      have hmem' : ClientEvent.onConnectionOpened cbid r n ∈
          (cancelLoop rid' c.pending_connections).2 := by
        simpa [QuicClient.step, QuicClient.CancelConnectRequest] using hmem
      rcases cancelLoop_events_shape rid' c.pending_connections with h | ⟨cid, h⟩
      · rw [h] at hmem'
        cases hmem'
      · rw [h] at hmem'
        rcases List.mem_singleton.1 hmem' with heq
        cases heq
  | handshake name =>
    cases hp : alistFind name c.pending_connections with
    | none =>
      refine ⟨?_, ?_, ?_⟩
      · simp [QuicClient.step, QuicClient.OnCryptoHandshakeComplete, hp]
      · intro r hr
        exact Or.inl (by
          simpa [QuicClient.step, QuicClient.OnCryptoHandshakeComplete, hp] using hr)
      · intro cbid r n hmem
        simp [QuicClient.step, QuicClient.OnCryptoHandshakeComplete, hp] at hmem
    | some p =>
      refine ⟨?_, ?_, ?_⟩
      · simp [QuicClient.step, QuicClient.OnCryptoHandshakeComplete, hp]
      · intro r hr
        refine Or.inl ?_
        have hr' : r ∈ pendingRequestIdsOf
            (alistEraseKey name c.pending_connections) := by
          simpa [QuicClient.step, QuicClient.OnCryptoHandshakeComplete, hp,
            pendingRequestIds] using hr
        exact pendingRequestIdsOf_eraseKey_subset name c.pending_connections r hr'
      · intro cbid r n hmem
        have hmem' : ClientEvent.onConnectionOpened cbid r n ∈
            p.callbacks.map (fun cb =>
              ClientEvent.onConnectionOpened cb.2 cb.1 c.next_instance_number) := by
          simpa [QuicClient.step, QuicClient.OnCryptoHandshakeComplete, hp] using hmem
        obtain ⟨cb, hcb, heq⟩ := List.mem_map.1 hmem'
        refine Or.inl
          (mem_pendingRequestIdsOf.2 ⟨(name, p), alistFind_some_mem hp, cb, hcb, ?_⟩)
        cases heq
        rfl
  | connectionClosed m =>
    refine ⟨?_, ?_, ?_⟩
    · simp only [QuicClient.step, QuicClient.OnConnectionClosed]
      split <;> simp
    · intro r hr
      refine Or.inl ?_
      simp only [QuicClient.step, QuicClient.OnConnectionClosed] at hr
      split at hr <;> simpa [pendingRequestIds] using hr
    · intro cbid r n hmem
      simp [QuicClient.step] at hmem
  | runCleanup =>
    refine ⟨?_, ?_, ?_⟩
    · simp [QuicClient.step, QuicClient.cleanup]
    · intro r hr
      exact Or.inl (by simpa [QuicClient.step, QuicClient.cleanup, pendingRequestIds] using hr)
    · intro cbid r n hmem
      simp [QuicClient.step, QuicClient.cleanup] at hmem

/-- After a cancellation: the request id no longer waits on any pending
entry, every waiting id is below the request-id counter and so is the
cancelled id. -/
def RidClear (rid : Nat) (c : QuicClient) : Prop :=
  ¬ rid ∈ pendingRequestIds c ∧
    (∀ r ∈ pendingRequestIds c, r < c.next_request_id) ∧
    rid < c.next_request_id

lemma RidClear.step {rid : Nat} {c : QuicClient} (h : RidClear rid c) (op : ClientOp) :
    RidClear rid (c.step op).1 ∧
    ∀ cbid n, ¬ ClientEvent.onConnectionOpened cbid rid n ∈ (c.step op).2.1 := by
  obtain ⟨hnot, hbound, hlt⟩ := h
  obtain ⟨hle, hsub, hev⟩ := c.step_request_ids op
  refine ⟨⟨?_, ?_, by omega⟩, ?_⟩
  · intro hmem
    rcases hsub rid hmem with h | ⟨h, _⟩
    · exact hnot h
    · omega
  · intro r hr
    rcases hsub r hr with h | ⟨h, hbump⟩
    · have := hbound r h
      omega
    · omega
  · intro cbid n hmem
    rcases hev cbid rid n hmem with h | h
    · exact hnot h
    · omega

lemma RidClear.runOps_no_opened {rid : Nat} (ops : List ClientOp) :
    ∀ c : QuicClient, RidClear rid c →
      ∀ cbid n, ¬ ClientEvent.onConnectionOpened cbid rid n ∈ (c.runOps ops).2.1 := by
  induction ops with
  | nil => intro c _ cbid n hmem; simp [QuicClient.runOps] at hmem
  | cons op ops ih =>
    intro c h cbid n hmem
    rw [QuicClient.runOps_cons] at hmem
    rcases List.mem_append.1 hmem with hmem | hmem
    · exact (h.step op).2 cbid n hmem
    · exact ih (c.step op).1 (h.step op).1 cbid n hmem

/-- C5: `CancelConnectRequest(request_id)` removes exactly the cancelled
waiter from its pending entry: the entry keeps its other waiters (in order)
when some remain, and is erased together with a synchronous close of its
QUIC session when the cancelled waiter was the last; entries for other
instance names are untouched; and after the call returns, the cancelled
request id never receives `OnConnectionOpened` on any continuation of the
trace.  The hypotheses are the request-id bookkeeping invariants of every
reachable client: waiter ids are globally distinct and below the counter,
pending entries are keyed uniquely and never waiter-free. -/
theorem C5_cancel_removes_exactly_one_waiter :
    ∀ (c : QuicClient) (rid : Nat) (name : String) (p : PendingConnectionData),
      alistFind name c.pending_connections = some p →
      (∃ cb ∈ p.callbacks, cb.1 = rid) →
      (c.pending_connections.map (fun e => e.1)).Nodup →
      (pendingRequestIds c).Nodup →
      (∀ e ∈ c.pending_connections, ¬ e.2.callbacks = []) →
      (∀ r ∈ pendingRequestIds c, r < c.next_request_id) →
      (alistFind name (c.CancelConnectRequest rid).1.pending_connections =
        (if (p.callbacks.filter (fun cb => ¬ cb.1 = rid)).isEmpty then none
         else some { p with callbacks := p.callbacks.filter (fun cb => ¬ cb.1 = rid) })) ∧
      (∀ other : String, ¬ other = name →
        alistFind other (c.CancelConnectRequest rid).1.pending_connections =
          alistFind other c.pending_connections) ∧
      ((c.CancelConnectRequest rid).2 =
        (if (p.callbacks.filter (fun cb => ¬ cb.1 = rid)).isEmpty then
          [ClientEvent.connClosed p.data.connId] else [])) ∧
      ¬ rid ∈ pendingRequestIds (c.CancelConnectRequest rid).1 ∧
      (∀ (ops : List ClientOp) (cbid n : Nat),
        ¬ ClientEvent.onConnectionOpened cbid rid n ∈
          ((c.CancelConnectRequest rid).1.runOps ops).2.1) := by
  intro c rid name p hfind hrid hkeys hnodup hne hbound
  obtain ⟨l₁, l₂, hsplit, hl₁name⟩ := alistFind_eq_some_split hfind
  -- request ids of the three segments
  have hidsplit : pendingRequestIds c =
      pendingRequestIdsOf l₁ ++ (p.callbacks.map (fun cb => cb.1) ++
        pendingRequestIdsOf l₂) := by
    rw [pendingRequestIds, hsplit, pendingRequestIdsOf_append, pendingRequestIdsOf_cons]
  have hridmem : rid ∈ p.callbacks.map (fun cb => cb.1) := by
    obtain ⟨cb, hcb, hcbr⟩ := hrid
    exact List.mem_map.2 ⟨cb, hcb, hcbr⟩
  have hnodup' := hidsplit ▸ hnodup
  have hrid_not_l₁ : ¬ rid ∈ pendingRequestIdsOf l₁ := by
    intro hmem
    exact (List.nodup_append.1 hnodup').2.2 hmem
      (List.mem_append.2 (Or.inl hridmem))
  have hrid_not_l₂ : ¬ rid ∈ pendingRequestIdsOf l₂ := by
    intro hmem
    have h2 := (List.nodup_append.1 hnodup').2.1
    exact (List.nodup_append.1 h2).2.2 hridmem hmem
  have hl₁no : ∀ e' ∈ l₁, (∀ cb ∈ e'.2.callbacks, ¬ cb.1 = rid) ∧
      ¬ e'.2.callbacks = [] := by
    intro e' he'
    refine ⟨?_, hne e' (hsplit ▸ List.mem_append.2 (Or.inl he'))⟩
    intro cb hcb hcbr
    exact hrid_not_l₁ (mem_pendingRequestIdsOf.2 ⟨e', he', cb, hcb, hcbr⟩)
  have hl₂no : ∀ e' ∈ l₂, ∀ cb ∈ e'.2.callbacks, ¬ cb.1 = rid := by
    intro e' he' cb hcb hcbr
    exact hrid_not_l₂ (mem_pendingRequestIdsOf.2 ⟨e', he', cb, hcb, hcbr⟩)
  -- the loop result
  have hloop := cancelLoop_found rid (name, p) hrid l₁ l₂ hl₁no
  have hresult : (c.CancelConnectRequest rid).1.pending_connections =
      (if (p.callbacks.filter (fun cb => ¬ cb.1 = rid)).isEmpty then l₁ ++ l₂
       else l₁ ++ (name,
         { p with callbacks := p.callbacks.filter (fun cb => ¬ cb.1 = rid) }) :: l₂) := by
    rw [QuicClient.CancelConnectRequest, hsplit, hloop]
    by_cases hemp : (p.callbacks.filter (fun cb => ¬ cb.1 = rid)).isEmpty = true
    · rw [if_pos hemp, if_pos hemp]
    · rw [if_neg hemp, if_neg hemp]
  have hevents : (c.CancelConnectRequest rid).2 =
      (if (p.callbacks.filter (fun cb => ¬ cb.1 = rid)).isEmpty then
        [ClientEvent.connClosed p.data.connId] else []) := by
    rw [QuicClient.CancelConnectRequest, hsplit, hloop]
    by_cases hemp : (p.callbacks.filter (fun cb => ¬ cb.1 = rid)).isEmpty = true
    · rw [if_pos hemp, if_pos hemp]
    · rw [if_neg hemp, if_neg hemp]
  -- keys of l₂ never collide with name
  have hl₂name : ∀ e ∈ l₂, ¬ e.1 = name := by
    have hk := hsplit ▸ hkeys
    rw [List.map_append, List.map_cons] at hk
    have hk2 := (List.nodup_append.1 hk).2.1
    have hnmem : ¬ name ∈ l₂.map (fun e => e.1) := (List.nodup_cons.1 hk2).1
    intro e he heq
    exact hnmem (List.mem_map.2 ⟨e, he, heq⟩)
  have hfilter_sub : ∀ cb ∈ p.callbacks.filter (fun cb => ¬ cb.1 = rid), ¬ cb.1 = rid :=
    fun cb hcb => by simpa using (List.mem_filter.1 hcb).2
  -- the cancelled id waits nowhere afterwards
  have hclear : ¬ rid ∈ pendingRequestIds (c.CancelConnectRequest rid).1 := by
    rw [pendingRequestIds, hresult]
    by_cases hemp : (p.callbacks.filter (fun cb => ¬ cb.1 = rid)).isEmpty = true
    · rw [if_pos hemp, pendingRequestIdsOf_append]
      intro hmem
      rcases List.mem_append.1 hmem with h | h
      · exact hrid_not_l₁ h
      · exact hrid_not_l₂ h
    · rw [if_neg hemp, pendingRequestIdsOf_append, pendingRequestIdsOf_cons]
      intro hmem
      rcases List.mem_append.1 hmem with h | h
      · exact hrid_not_l₁ h
      · rcases List.mem_append.1 h with h | h
        · obtain ⟨cb, hcb, hcbr⟩ := List.mem_map.1 h
          exact hfilter_sub cb hcb hcbr
        · exact hrid_not_l₂ h
  refine ⟨?_, ?_, hevents, hclear, ?_⟩
  · rw [hresult]
    by_cases hemp : (p.callbacks.filter (fun cb => ¬ cb.1 = rid)).isEmpty = true
    · rw [if_pos hemp, if_pos hemp, alistFind_append_of_skip name l₁ l₂ hl₁name]
      exact alistFind_of_skip name l₂ hl₂name
    · rw [if_neg hemp, if_neg hemp, alistFind_append_of_skip name _ _ hl₁name]
      exact alistFind_cons_eq name _ l₂ rfl
  · intro other hother
    rw [hresult, hsplit]
    by_cases hemp : (p.callbacks.filter (fun cb => ¬ cb.1 = rid)).isEmpty = true
    · rw [if_pos hemp, alistFind_append_middle_ne other (name, p) l₁ l₂
        (fun h => hother h.symm)]
    · rw [if_neg hemp,
        alistFind_append_middle_ne other (name,
          { p with callbacks := p.callbacks.filter (fun cb => ¬ cb.1 = rid) }) l₁ l₂
          (fun h => hother h.symm),
        alistFind_append_middle_ne other (name, p) l₁ l₂
          (fun h => hother h.symm)]
  · -- trace continuation: the cancelled id never receives OnConnectionOpened
    have hridlt : rid < c.next_request_id := by
      refine hbound rid ?_
      obtain ⟨cb, hcb, hcbr⟩ := hrid
      exact mem_pendingRequestIdsOf.2
        ⟨(name, p), alistFind_some_mem hfind, cb, hcb, hcbr⟩
    have hclear' : RidClear rid (c.CancelConnectRequest rid).1 := by
      refine ⟨hclear, ?_, ?_⟩
      · intro r hr
        have hr' : r ∈ pendingRequestIdsOf (cancelLoop rid c.pending_connections).1 := by
          simpa [QuicClient.CancelConnectRequest, pendingRequestIds] using hr
        have hrc : r ∈ pendingRequestIds c :=
          cancelLoop_rids_subset rid c.pending_connections r hr'
        have hnext : (c.CancelConnectRequest rid).1.next_request_id =
            c.next_request_id := rfl
        rw [hnext]
        exact hbound r hrc
      · exact hridlt
    intro ops cbid n
    exact RidClear.runOps_no_opened ops (c.CancelConnectRequest rid).1 hclear' cbid n

/-- C5 witness: cancelling request id 1 on the concrete two-waiter client
removes exactly waiter 1 and leaves waiter 2 pending; no close happens
because a waiter remains, and id 1 never receives `OnConnectionOpened` on
the continued trace that completes the handshake. -/
theorem C5_cancel_removes_exactly_one_waiter_witness :
    (alistFind "X" (sampleTwoWaiterClient.CancelConnectRequest 1).1.pending_connections =
      some ⟨⟨7, false⟩, [(2, 11)]⟩) ∧
    (sampleTwoWaiterClient.CancelConnectRequest 1).2 = [] ∧
    ¬ ClientEvent.onConnectionOpened 10 1 1 ∈
      ((sampleTwoWaiterClient.CancelConnectRequest 1).1.runOps [.handshake "X"]).2.1 :=
  by
  have h := C5_cancel_removes_exactly_one_waiter sampleTwoWaiterClient 1 "X"
    ⟨⟨7, false⟩, [(1, 10), (2, 11)]⟩ (by decide) ⟨(1, 10), by decide, rfl⟩
    (by decide) (by decide) (by decide) (by decide)
  refine ⟨?_, ?_, h.2.2.2.2 [.handshake "X"] 10 1⟩
  · have h1 := h.1
    simpa using h1
  · have h3 := h.2.2.1
    simpa using h3
